import Mathlib

/-!
# Verification of the transaction-engine core (kernel / track / module pipeline)

Shallow embedding of the relevant parts of the `radixdlt-scrypto` engine:

* `Track` — the transactional substate write-buffer
  (`radix-engine/src/track/track.rs`);
* the system module mixer (`radix-engine/src/system/module_mixer.rs`);
* the costing module's depth gate
  (`radix-engine/src/system/system_modules/costing/costing_module.rs`);
* the node-move module
  (`radix-engine/src/system/kernel_modules/node_move/node_move_module.rs`);
* `generate_uuid`
  (`radix-engine/src/model/transaction_runtime/executables.rs`);
* the auth role-graph cycle check (modelled from the spec, the implementation
  is exercised only by `radix-engine-tests/tests/access_rules.rs`).

Rust `IndexMap`s are embedded as association lists with insert-or-replace
semantics; `&mut self` methods are embedded as state-passing functions;
methods that can `panic!`/`expect` return `Option`.
-/

namespace Spec2Proof

/-! ## Association-list primitives (embedding of `IndexMap`) -/

/-- Lookup of the first entry with the given key (an `IndexMap` holds at most
one entry per key). -/
def lookupA {α β : Type} [DecidableEq α] : List (α × β) → α → Option β
  | [], _ => none
  | (a', b) :: rest, a => if a' = a then some b else lookupA rest a

/-- `IndexMap::insert`: replace the value in place when the key is present,
append otherwise. -/
def insertA {α β : Type} [DecidableEq α] : List (α × β) → α → β → List (α × β)
  | [], a, b => [(a, b)]
  | (a', b') :: rest, a, b =>
    if a' = a then (a', b) :: rest else (a', b') :: insertA rest a b

/-- `IndexMap::remove`: drop the entry with the given key. -/
def removeA {α β : Type} [DecidableEq α] : List (α × β) → α → List (α × β)
  | [], _ => []
  | (a', b) :: rest, a =>
    if a' = a then rest else (a', b) :: removeA rest a

/-- Mutation through `get_mut`: apply `f` to the value of the first entry with
the given key. -/
def modifyA {α β : Type} [DecidableEq α] : List (α × β) → α → (β → β) → List (α × β)
  | [], _, _ => []
  | (a', b) :: rest, a, f =>
    if a' = a then (a', f b) :: rest else (a', b) :: modifyA rest a f


/-! ## Track (`radix-engine/src/track/track.rs`) -/

/-- `NodeId` (opaque fixed-width id). -/
abbrev NodeId := Nat

/-- `ModuleId`. -/
abbrev ModuleId := Nat

/-- `SubstateKey`. -/
abbrev SubstateKey := Nat

/-- The full address of a substate: `(node_id, module_id, substate_key)`. -/
abbrev Addr := NodeId × ModuleId × SubstateKey

/-- `IndexedScryptoValue` (opaque payload). -/
abbrev Value := Nat

/-- `SubstateLockState`: `Read(usize)` or `Write`. -/
inductive SubstateLockState where
  | Read (n : Nat)
  | Write
deriving DecidableEq, Repr

/-- `SubstateLockState::no_lock()` is `Read(0)`. -/
def SubstateLockState.no_lock : SubstateLockState := .Read 0

/-- `ExistingMetaState`: `Loaded` or `Updated(Option<IndexedScryptoValue>)`. -/
inductive ExistingMetaState where
  | Loaded
  | Updated (snapshot : Option Value)
deriving DecidableEq, Repr

/-- `SubstateMetaState`: `New` or `Existing { state }`. -/
inductive SubstateMetaState where
  | New
  | Existing (state : ExistingMetaState)
deriving DecidableEq, Repr

/-- `LoadedSubstate`. -/
structure LoadedSubstate where
  substate : Value
  lock_state : SubstateLockState
  meta_state : SubstateMetaState
deriving DecidableEq, Repr

/-- `LockFlags`: the three flags the track inspects (`MUTABLE`, `FORCE_WRITE`,
`UNMODIFIED_BASE`). -/
structure LockFlags where
  is_mutable : Bool
  force_write : Bool
  unmodified_base : Bool
deriving DecidableEq, Repr

/-- `LockFlags::read_only()`. -/
def LockFlags.read_only : LockFlags := ⟨false, false, false⟩

/-- `AcquireLockError`. -/
inductive AcquireLockError where
  | NotFound (node_id : NodeId) (module_id : ModuleId) (substate_key : SubstateKey)
  | SubstateLocked (node_id : NodeId) (module_id : ModuleId) (substate_key : SubstateKey)
  | LockUnmodifiedBaseOnNewSubstate (node_id : NodeId) (module_id : ModuleId)
      (substate_key : SubstateKey)
  | LockUnmodifiedBaseOnOnUpdatedSubstate (node_id : NodeId) (module_id : ModuleId)
      (substate_key : SubstateKey)
deriving DecidableEq, Repr

/-- `StateUpdate`: `Create` or `Update` with the final value. -/
inductive StateUpdate where
  | Create (v : Value)
  | Update (v : Value)
deriving DecidableEq, Repr

/-- `Track`: the nested `IndexMap<NodeId, IndexMap<ModuleId, IndexMap<SubstateKey, _>>>`
is flattened into one association list keyed by the full address triple;
behaviour on every `(node, module, key)` access is unchanged. -/
structure Track where
  db : Addr → Option Value
  loaded_substates : List (Addr × LoadedSubstate)
  locks : List (Nat × (Addr × LockFlags))
  next_lock_id : Nat

/-- `Track::add_loaded_substate`: cache a value read from the database, with
no lock and meta-state `Existing { state: Loaded }`. -/
def Track.add_loaded_substate (t : Track) (a : Addr) (v : Value) : Track :=
  { t with loaded_substates :=
      insertA t.loaded_substates a ⟨v, .Read 0, .Existing .Loaded⟩ }

/-- `Track::new_lock_handle`: issue `next_lock_id` and record the lock. -/
def Track.new_lock_handle (t : Track) (a : Addr) (flags : LockFlags) : Nat × Track :=
  (t.next_lock_id,
   { t with
      locks := insertA t.locks t.next_lock_id (a, flags),
      next_lock_id := t.next_lock_id + 1 })

/-- The read/write-permission check of `Track::acquire_lock` (the `match` on
`loaded_substate.lock_state`), run once the substate is loaded and the
`UNMODIFIED_BASE` check has passed. -/
def Track.acquireLockStateCheck (t : Track) (a : Addr) (flags : LockFlags)
    (ls : LoadedSubstate) : Except AcquireLockError Nat × Track :=
  match ls.lock_state with
  | .Read n =>
    if flags.is_mutable then
      if n ≠ 0 then
        (.error (.SubstateLocked a.1 a.2.1 a.2.2), t)
      else
        let l2 := modifyA t.loaded_substates a (fun l => { l with lock_state := .Write })
        let t2 := { t with loaded_substates := l2 }
        let ht := t2.new_lock_handle a flags
        (.ok ht.1, ht.2)
    else
      let l2 := modifyA t.loaded_substates a (fun l => { l with lock_state := .Read (n + 1) })
      let t2 := { t with loaded_substates := l2 }
      let ht := t2.new_lock_handle a flags
      (.ok ht.1, ht.2)
  | .Write => (.error (.SubstateLocked a.1 a.2.1 a.2.2), t)

/-- `Track::acquire_lock`. The Rust method mutates `&mut self` and returns a
`Result<u32, AcquireLockError>`; here it returns the result together with the
successor state (on error the state still carries any substate that step 1
loaded from the database, exactly as in the source). -/
def Track.acquire_lock (t : Track) (a : Addr) (flags : LockFlags) :
    Except AcquireLockError Nat × Track :=
  -- Load the substate from state track
  let t1 : Track :=
    match lookupA t.loaded_substates a with
    | some _ => t
    | none =>
      match t.db a with
      | some v => t.add_loaded_substate a v
      | none => t
  match lookupA t1.loaded_substates a with
  | none => (.error (.NotFound a.1 a.2.1 a.2.2), t1)
  | some ls =>
    -- Check substate state
    if flags.unmodified_base then
      match ls.meta_state with
      | .New =>
        (.error (.LockUnmodifiedBaseOnNewSubstate a.1 a.2.1 a.2.2), t1)
      | .Existing (.Updated _) =>
        (.error (.LockUnmodifiedBaseOnOnUpdatedSubstate a.1 a.2.1 a.2.2), t1)
      | .Existing .Loaded => t1.acquireLockStateCheck a flags ls
    else t1.acquireLockStateCheck a flags ls

/-- The meta-state transition of `Track::release_lock` when a non-force-write
write lock is released: a merely loaded substate becomes `Updated(None)`;
`New` and already-updated substates are unchanged. -/
def releaseWriteMeta : SubstateMetaState → SubstateMetaState
  | .New => .New
  | .Existing .Loaded => .Existing (.Updated none)
  | .Existing (.Updated s) => .Existing (.Updated s)

/-- `Track::release_lock`. The Rust method `expect`s on an invalid handle, on a
missing substate for a valid handle, and `panic!`s on force-writing a `New`
substate; those paths return `none`. -/
def Track.release_lock (t : Track) (handle : Nat) : Option Track :=
  match lookupA t.locks handle with
  | none => none
  | some (a, flags) =>
    let t1 : Track := { t with locks := removeA t.locks handle }
    match lookupA t1.loaded_substates a with
    | none => none
    | some ls =>
      match ls.lock_state with
      | .Read n =>
        let l2 := modifyA t1.loaded_substates a (fun l => { l with lock_state := .Read (n - 1) })
        some { t1 with loaded_substates := l2 }
      | .Write =>
        if flags.force_write then
          match ls.meta_state with
          | .Existing _ =>
            let l2 := modifyA t1.loaded_substates a (fun l =>
              { l with
                  lock_state := SubstateLockState.no_lock,
                  meta_state := .Existing (.Updated (some l.substate)) })
            some { t1 with loaded_substates := l2 }
          | .New => none
        else
          let l2 := modifyA t1.loaded_substates a (fun l =>
            { l with
                lock_state := SubstateLockState.no_lock,
                meta_state := releaseWriteMeta l.meta_state })
          some { t1 with loaded_substates := l2 }

/-- `Track::read_substate` (Rust panics on an invalid handle: `none`). -/
def Track.read_substate (t : Track) (handle : Nat) : Option Value :=
  match lookupA t.locks handle with
  | none => none
  | some (a, _) => (lookupA t.loaded_substates a).map (·.substate)

/-- `Track::update_substate` (Rust panics without `MUTABLE` or on an invalid
handle: `none`). -/
def Track.update_substate (t : Track) (handle : Nat) (v : Value) : Option Track :=
  match lookupA t.locks handle with
  | none => none
  | some (a, flags) =>
    if flags.is_mutable then
      match lookupA t.loaded_substates a with
      | none => none
      | some _ =>
        let l2 := modifyA t.loaded_substates a (fun l => { l with substate := v })
        some { t with loaded_substates := l2 }
    else none

/-- `Track::create_substate`: insert a `New` entry with no lock. -/
def Track.create_substate (t : Track) (a : Addr) (v : Value) : Track :=
  { t with loaded_substates := insertA t.loaded_substates a ⟨v, .Read 0, .New⟩ }

/-- The per-entry action of `Track::revert_non_force_write_changes`: an entry
survives exactly when its meta-state is `Existing { Updated(Some value) }`, and
then its substate is overwritten with the snapshot `value`. -/
def revertEntry (ls : LoadedSubstate) : Option LoadedSubstate :=
  match ls.meta_state with
  | .Existing (.Updated (some v)) => some { ls with substate := v }
  | _ => none

/-- `Track::revert_non_force_write_changes`: the nested `retain` with in-place
restoration, flattened. -/
def Track.revert_non_force_write_changes (t : Track) : Track :=
  { t with loaded_substates :=
      t.loaded_substates.filterMap (fun p => (revertEntry p.2).map (fun ls => (p.1, ls))) }

/-- The per-entry record emitted by `Track::finalize`. -/
def finalizeEntry (ls : LoadedSubstate) : StateUpdate :=
  match ls.meta_state with
  | .New => .Create ls.substate
  | .Existing _ => .Update ls.substate

/-- `Track::finalize`: one `{Create | Update}` record per loaded substate. -/
def Track.finalize (t : Track) : List (Addr × StateUpdate) :=
  t.loaded_substates.map (fun p => (p.1, finalizeEntry p.2))

/-- Well-formedness maintained by the Rust representation: `IndexMap` keys are
unique and lock handles are below `next_lock_id`. -/
structure Track.Wf (t : Track) : Prop where
  loaded_nodup : (t.loaded_substates.map Prod.fst).Nodup
  locks_nodup : (t.locks.map Prod.fst).Nodup
  locks_fresh : ∀ p ∈ t.locks, p.1 < t.next_lock_id

/-- Number of outstanding read locks recorded in `locks` for an address. -/
def Track.readLockCount (t : Track) (a : Addr) : Nat :=
  t.locks.countP (fun p => decide (p.2.1 = a) && !p.2.2.is_mutable)

/-- Number of outstanding write locks recorded in `locks` for an address. -/
def Track.writeLockCount (t : Track) (a : Addr) : Nat :=
  t.locks.countP (fun p => decide (p.2.1 = a) && p.2.2.is_mutable)

/-- The lock bookkeeping invariant at one address: the substate's
`lock_state` agrees with the outstanding lock handles — `Read n` means exactly
`n` read handles and no write handle, `Write` means exactly one write handle
and no read handle, and an address that is not loaded has no handles at all. -/
def Track.consistentAt (t : Track) (a : Addr) : Prop :=
  match lookupA t.loaded_substates a with
  | some ls =>
    (∀ n, ls.lock_state = .Read n → t.readLockCount a = n ∧ t.writeLockCount a = 0) ∧
    (ls.lock_state = .Write → t.writeLockCount a = 1 ∧ t.readLockCount a = 0)
  | none => t.readLockCount a = 0 ∧ t.writeLockCount a = 0

/-- The lock bookkeeping invariant, at every address. -/
def Track.locksConsistent (t : Track) : Prop :=
  ∀ a : Addr, t.consistentAt a

/-! ## System module mixer (`radix-engine/src/system/module_mixer.rs`) -/

/-- The eight system modules wired into the mixer. -/
inductive SysModule where
  | kernelTrace
  | limits
  | costing
  | auth
  | nodeMove
  | txRuntime
  | txEvents
  | execTrace
deriving DecidableEq, Repr

/-- The `EnabledModules` bitset. -/
structure EnabledModules where
  kernel_trace : Bool
  limits : Bool
  costing : Bool
  auth : Bool
  node_move : Bool
  transaction_runtime : Bool
  transaction_events : Bool
  execution_trace : Bool
deriving DecidableEq, Repr

/-- `EnabledModules::contains` for a single module flag. -/
def EnabledModules.containsM (em : EnabledModules) : SysModule → Bool
  | .kernelTrace => em.kernel_trace
  | .limits => em.limits
  | .costing => em.costing
  | .auth => em.auth
  | .nodeMove => em.node_move
  | .txRuntime => em.transaction_runtime
  | .txEvents => em.transaction_events
  | .execTrace => em.execution_trace

/-- `EnabledModules::for_notarized_transaction()`. -/
def EnabledModules.for_notarized_transaction : EnabledModules :=
  ⟨false, true, true, true, true, true, true, false⟩

/-- All eight module flags set. -/
def EnabledModules.all : EnabledModules :=
  ⟨true, true, true, true, true, true, true, true⟩

/-- The order in which `internal_call_dispatch!` (and hence `on_teardown` and
every per-operation hook) consults the modules. -/
def dispatchOrder : List SysModule :=
  [.kernelTrace, .limits, .costing, .auth, .nodeMove, .txRuntime, .txEvents, .execTrace]

/-- The order in which `SystemModuleMixer::on_init` consults the modules
(execution trace first, kernel trace last). -/
def onInitOrder : List SysModule :=
  [.execTrace, .txEvents, .txRuntime, .nodeMove, .auth, .costing, .limits, .kernelTrace]

/-- The modules that actually run, given a bitset and a consultation order:
each `if modules.contains(...)` guard in the mixer. -/
def enabledIn (em : EnabledModules) (order : List SysModule) : List SysModule :=
  order.filter em.containsM

/-- Run the per-module hooks in sequence; the `?` after each call makes the
first error short-circuit the remaining modules. The hook bodies are
abstracted as a function from the module to its result. -/
def runHooks {E : Type} (handlers : SysModule → Except E Unit) :
    List SysModule → Except E Unit
  | [] => .ok ()
  | m :: rest =>
    match handlers m with
    | .error e => .error e
    | .ok _ => runHooks handlers rest

/-- The modules a `runHooks` sequence actually invokes (every module up to and
including the first failing one). -/
def invokedModules {E : Type} (handlers : SysModule → Except E Unit) :
    List SysModule → List SysModule
  | [] => []
  | m :: rest =>
    match handlers m with
    | .error _ => [m]
    | .ok _ => m :: invokedModules handlers rest

/-- `SystemModuleMixer::on_init`. -/
def SystemModuleMixer.on_init {E : Type} (em : EnabledModules)
    (handlers : SysModule → Except E Unit) : Except E Unit :=
  runHooks handlers (enabledIn em onInitOrder)

/-- `internal_call_dispatch!`, shared by `on_teardown`, `before_invoke` and all
other per-operation hooks. -/
def internal_call_dispatch {E : Type} (em : EnabledModules)
    (handlers : SysModule → Except E Unit) : Except E Unit :=
  runHooks handlers (enabledIn em dispatchOrder)

/-- `SystemModuleMixer::on_teardown` (a plain `internal_call_dispatch!`). -/
def SystemModuleMixer.on_teardown {E : Type} (em : EnabledModules)
    (handlers : SysModule → Except E Unit) : Except E Unit :=
  internal_call_dispatch em handlers

/-- The modules `on_init` actually invokes. -/
def SystemModuleMixer.on_init_invoked {E : Type} (em : EnabledModules)
    (handlers : SysModule → Except E Unit) : List SysModule :=
  invokedModules handlers (enabledIn em onInitOrder)

/-- The modules a dispatched operation (`on_teardown` included) actually
invokes. -/
def SystemModuleMixer.dispatch_invoked {E : Type} (em : EnabledModules)
    (handlers : SysModule → Except E Unit) : List SysModule :=
  invokedModules handlers (enabledIn em dispatchOrder)

/-! ## Costing module depth gate
(`radix-engine/src/system/system_modules/costing/costing_module.rs`) -/

/-- Opaque fee-reserve failure. Modelled from the spec: `FeeReserveError`
(`SystemLoanFeeReserve` is not under `src/`); only its identity matters here. -/
abbrev FeeReserveError := Nat

/-- `CostingError`. -/
inductive CostingError where
  | FeeReserveError (e : FeeReserveError)
  | MaxCallDepthLimitReached
  | WrongSubstateStoreDbAccessInfo
deriving DecidableEq, Repr

/-- The state of `CostingModule` that `before_invoke` reads:
`max_call_depth`, and the `apply_execution_cost` charge for the
`CostingEntry::Invoke { input_size, .. }` entry, abstracted as a function of
the input size (the fee table and fee reserve are not under `src/`). -/
structure CostingModule where
  max_call_depth : Nat
  charge_invoke : Nat → Except FeeReserveError Unit

/-- `CostingModule::before_invoke`: reject when the current depth equals
`max_call_depth`; otherwise charge the invoke cost whenever `current_depth > 0`. -/
def CostingModule.before_invoke (m : CostingModule) (current_depth : Nat)
    (input_size : Nat) : Except CostingError Unit :=
  if current_depth = m.max_call_depth then
    .error .MaxCallDepthLimitReached
  else if 0 < current_depth then
    match m.charge_invoke input_size with
    | .error e => .error (.FeeReserveError e)
    | .ok _ => .ok ()
  else .ok ()

/-! ## Transaction runtime `generate_uuid`
(`radix-engine/src/model/transaction_runtime/executables.rs`) -/

/-- `TransactionRuntimeError`. -/
inductive TransactionRuntimeError where
  | OutOfUUid
deriving DecidableEq, Repr

/-- The transaction-runtime substate: the transaction hash (as its 32 bytes)
and the `next_id` counter. -/
structure TransactionRuntimeSubstate where
  hash : List Nat
  next_id : Nat
deriving DecidableEq, Repr

/-- `u32::MAX`. -/
def u32MAX : Nat := 4294967295

/-- `u32::to_le_bytes`. -/
def u32ToLeBytes (n : Nat) : List Nat :=
  [n % 256, n / 256 % 256, n / 65536 % 256, n / 16777216 % 256]

/-- Little-endian bytes to a natural number (`u128::from_le_bytes`). -/
def leBytesToNat : List Nat → Nat
  | [] => 0
  | b :: rest => b + 256 * leBytesToNat rest

/-- Modelled from the spec: `Hash::lower_16_bytes` composed with
`u128::from_le_bytes` — the low 128 bits of a 32-byte hash (the `Hash` type is
not under `src/`). -/
def low128 (h : List Nat) : Nat :=
  leBytesToNat (h.drop 16)

/-- `TransactionRuntimeGenerateUuidInvocation::execute`, with the `hash`
function abstracted as a parameter (its implementation is not under `src/`):
fail with `OutOfUUid` at `next_id == u32::MAX`, otherwise hash
`tx_hash || next_id.to_le_bytes()`, take the low 128 bits, and advance
`next_id` by one. -/
def generate_uuid (hashFn : List Nat → List Nat)
    (s : TransactionRuntimeSubstate) :
    Except TransactionRuntimeError (Nat × TransactionRuntimeSubstate) :=
  if s.next_id = u32MAX then
    .error .OutOfUUid
  else
    let data := s.hash ++ u32ToLeBytes s.next_id
    let uuid := low128 (hashFn data)
    .ok (uuid, { s with next_id := s.next_id + 1 })

/-! ## Node-move module
(`radix-engine/src/system/kernel_modules/node_move/node_move_module.rs`) -/

/-- Package addresses; only `RESOURCE_MANAGER_PACKAGE` is distinguished. -/
inductive PackageAddress where
  | resourceManager
  | other (n : Nat)
deriving DecidableEq, Repr

/-- `PROOF_BLUEPRINT`. -/
def PROOF_BLUEPRINT : String := "Proof"

/-- `AUTH_ZONE_BLUEPRINT`. -/
def AUTH_ZONE_BLUEPRINT : String := "AuthZone"

/-- `RENodeId`, restricted to the variants the node-move module matches on. -/
inductive RENodeId where
  | Object (id : Nat)
  | KeyValueStore (id : Nat)
  | GlobalObject (id : Nat)
deriving DecidableEq, Repr

/-- `TypeInfoSubstate`, as matched by `prepare_move_downstream`. -/
inductive TypeInfoSubstate where
  | Object (package_address : PackageAddress) (blueprint_name : String)
  | KeyValueStore
deriving DecidableEq, Repr

/-- `AdditionalActorInfo`: the callee is a function or a method on a node. -/
inductive AdditionalActorInfo where
  | Function
  | Method (receiver : RENodeId)
deriving DecidableEq, Repr

/-- The part of `FnIdentifier` the module matches on. -/
structure FnIdentifier where
  package_address : PackageAddress
deriving DecidableEq, Repr

/-- `Actor`. -/
structure Actor where
  info : AdditionalActorInfo
  fn_identifier : FnIdentifier
deriving DecidableEq, Repr

/-- `NodeMoveError`. -/
inductive NodeMoveError where
  | CantMoveDownstream (node : RENodeId)
  | CantMoveUpstream (node : RENodeId)
deriving DecidableEq, Repr

/-- The kernel state `prepare_move_downstream` consults:
`api.get_object_type_info` for object nodes, `TypeInfoBlueprint::get_type` for
the callee receiver, and the `ProofInfoSubstate.restricted` flag of proof
nodes (the substate-lock plumbing around the flag is its `api` access). -/
structure NodeEnv where
  object_type_info : Nat → PackageAddress × String
  type_info : RENodeId → Option TypeInfoSubstate
  proof_restricted : Nat → Bool

/-- `ProofInfoSubstate::change_to_restricted` on the proof of node `oid`. -/
def NodeEnv.restrictProof (env : NodeEnv) (oid : Nat) : NodeEnv :=
  { env with proof_restricted := fun i => if i = oid then true else env.proof_restricted i }

/-- The `changed_to_restricted` computation of `prepare_move_downstream`:
a proof stays unrestricted only when the callee is a method on a node whose
type is the auth-zone blueprint of the resource-manager package. -/
def changedToRestricted (env : NodeEnv) : AdditionalActorInfo → Bool
  | .Method receiver =>
    match env.type_info receiver with
    | some (.Object pkg bp) =>
      !(pkg = .resourceManager ∧ bp = AUTH_ZONE_BLUEPRINT : Bool)
    | _ => true
  | .Function => true

/-- `NodeMoveModule::prepare_move_downstream`, returning the updated kernel
state (the proof-restriction flags are the only state it writes). -/
def prepare_move_downstream (env : NodeEnv) (node_id : RENodeId) (callee : Actor) :
    Except NodeMoveError NodeEnv :=
  match node_id with
  | .Object oid =>
    let ti := env.object_type_info oid
    if ti.1 = .resourceManager ∧ ti.2 = PROOF_BLUEPRINT then
      if callee.info = .Function ∧ callee.fn_identifier.package_address = .resourceManager then
        .ok env
      else
        -- Change to restricted unless it's moved to auth zone.
        if env.proof_restricted oid then
          .error (.CantMoveDownstream node_id)
        else if changedToRestricted env callee.info then
          .ok (env.restrictProof oid)
        else .ok env
    else .ok env
  | .KeyValueStore _ => .error (.CantMoveDownstream node_id)
  | .GlobalObject _ => .error (.CantMoveDownstream node_id)

/-- `NodeMoveModule::prepare_move_upstream`. -/
def prepare_move_upstream (node_id : RENodeId) : Except NodeMoveError Unit :=
  match node_id with
  | .Object _ => .ok ()
  | .KeyValueStore _ => .error (.CantMoveUpstream node_id)
  | .GlobalObject _ => .error (.CantMoveUpstream node_id)

/-- `NodeMoveModule::before_push_frame`: apply the downstream move policy to
each node in `nodes_to_move`, short-circuiting on the first error. -/
def NodeMoveModule.before_push_frame (env : NodeEnv) (nodes : List RENodeId)
    (callee : Actor) : Except NodeMoveError NodeEnv :=
  match nodes with
  | [] => .ok env
  | n :: rest =>
    match prepare_move_downstream env n callee with
    | .error e => .error e
    | .ok env' => NodeMoveModule.before_push_frame env' rest callee

/-- `NodeMoveModule::on_execution_finish` (the frame-pop direction). -/
def NodeMoveModule.on_execution_finish (nodes : List RENodeId) :
    Except NodeMoveError Unit :=
  match nodes with
  | [] => .ok ()
  | n :: rest =>
    match prepare_move_upstream n with
    | .error e => .error e
    | .ok _ => NodeMoveModule.on_execution_finish rest

/-! ## Auth role-graph cycle check

Modelled from the spec: the Auth module's cycle check over the role graph
(role → required proof set possibly mentioning other roles) is not under
`src/`; only its tests are (`radix-engine-tests/tests/access_rules.rs`). -/

/-- A role name. -/
abbrev Role := Nat

/-- A role graph: each defined role with the list of roles its access rule
requires. -/
structure RoleGraph where
  roles : List (Role × List Role)

/-- The roles required by a role's rule. -/
def RoleGraph.succs (g : RoleGraph) (r : Role) : List Role :=
  (lookupA g.roles r).getD []

/-- The defined roles. -/
def RoleGraph.vertices (g : RoleGraph) : List Role :=
  g.roles.map Prod.fst

/-- The requirement edge: role `r`'s rule mentions role `r'`. -/
def RoleGraph.edge (g : RoleGraph) (r r' : Role) : Prop :=
  r' ∈ g.succs r

/-- One pruning pass: keep exactly the roles that still require some role in
the surviving set. Roles in a requirement cycle are never pruned. -/
def RoleGraph.prune (g : RoleGraph) (s : List Role) : List Role :=
  s.filter (fun x => (g.succs x).any (fun y => decide (y ∈ s)))

/-- `n` pruning passes. -/
def RoleGraph.pruneN (g : RoleGraph) : Nat → List Role → List Role
  | 0, s => s
  | n + 1, s => g.pruneN n (g.prune s)

/-- Modelled from the spec: `AuthError::CycleCheckError`. -/
inductive AuthError where
  | CycleCheckError
deriving DecidableEq, Repr

/-- Modelled from the spec: the Auth module's cycle check, run on a role graph
at component creation and on role-rule mutation. It prunes cycle-free roles
until nothing remains; any surviving role witnesses a requirement cycle and is
rejected as `CycleCheckError`. -/
def check_role_graph (g : RoleGraph) : Except AuthError Unit :=
  if (g.pruneN g.roles.length g.vertices).isEmpty then .ok () else .error .CycleCheckError

/-! ## Concrete instances used in witnesses and counterexamples -/

/-- A one-substate database. -/
def dbOne : Addr → Option Value := fun a => if a = ((0 : Nat), (0 : Nat), (0 : Nat)) then some 7 else none

/-- The empty track over `dbOne`. -/
def trackEmpty : Track := ⟨dbOne, [], [], 0⟩

/-- A track holding one force-written entry and one plainly-updated entry. -/
def trackReverted : Track :=
  ⟨dbOne,
   [(((0 : Nat), (0 : Nat), (0 : Nat)), ⟨99, .Read 0, .Existing (.Updated (some 7))⟩),
    (((1 : Nat), (0 : Nat), (0 : Nat)), ⟨5, .Read 0, .Existing (.Updated none)⟩)],
   [], 0⟩

/-- A track holding one `New` entry and one loaded entry. -/
def trackMixed : Track :=
  ⟨dbOne,
   [(((0 : Nat), (0 : Nat), (0 : Nat)), ⟨7, .Read 0, .Existing .Loaded⟩),
    (((1 : Nat), (0 : Nat), (0 : Nat)), ⟨5, .Read 0, .New⟩)],
   [], 0⟩

/-- A track with one write-locked, merely loaded substate and its handle. -/
def trackWriteLocked : Track :=
  ⟨dbOne,
   [(((0 : Nat), (0 : Nat), (0 : Nat)), ⟨7, .Write, .Existing .Loaded⟩)],
   [(0, (((0 : Nat), (0 : Nat), (0 : Nat)), ⟨true, false, false⟩))], 1⟩

/-- An environment with a single restricted proof node. -/
def proofEnvCx : NodeEnv :=
  ⟨fun _ => (.resourceManager, PROOF_BLUEPRINT), fun _ => none, fun _ => true⟩

/-- An environment with a single unrestricted proof node. -/
def proofEnvU : NodeEnv :=
  ⟨fun _ => (.resourceManager, PROOF_BLUEPRINT), fun _ => none, fun _ => false⟩

/-- A callee that is a function of the resource-manager package. -/
def resourceFnCallee : Actor := ⟨.Function, ⟨.resourceManager⟩⟩

/-- A callee that is a method on some non-auth-zone node. -/
def methodCallee : Actor := ⟨.Method (.Object 5), ⟨.other 1⟩⟩

/-- The cyclic role graph of the `access_rules.rs` tests:
`deposit_funds_auth → require(borrow_funds_auth)` and back. -/
def gCyclic : RoleGraph := ⟨[(0, [1]), (1, [0])]⟩

/-- An acyclic role graph. -/
def gAcyclic : RoleGraph := ⟨[(0, [1]), (1, [])]⟩

/-! ## Association-list lemmas -/

theorem lookupA_modifyA_self {α β : Type} [DecidableEq α]
    (l : List (α × β)) (a : α) (f : β → β) :
    lookupA (modifyA l a f) a = (lookupA l a).map f := by
  induction l with
  | nil => rfl
  | cons p rest ih =>
    obtain ⟨a', b⟩ := p
    by_cases h : a' = a
    · simp [modifyA, lookupA, h]
    · simp [modifyA, lookupA, h, ih]

theorem lookupA_modifyA_ne {α β : Type} [DecidableEq α]
    (l : List (α × β)) (a a' : α) (f : β → β) (h : a ≠ a') :
    lookupA (modifyA l a f) a' = lookupA l a' := by
  induction l with
  | nil => rfl
  | cons p rest ih =>
    obtain ⟨k, b⟩ := p
    by_cases hk : k = a
    · subst hk
      simp [modifyA, lookupA, h]
    · by_cases hk' : k = a'
      · subst hk'
        simp [modifyA, lookupA, hk, Ne.symm h]
      · simp [modifyA, lookupA, hk, hk', ih]

theorem lookupA_insertA_self {α β : Type} [DecidableEq α]
    (l : List (α × β)) (a : α) (b : β) :
    lookupA (insertA l a b) a = some b := by
  induction l with
  | nil => simp [insertA, lookupA]
  | cons p rest ih =>
    obtain ⟨k, b'⟩ := p
    by_cases hk : k = a
    · simp [insertA, lookupA, hk]
    · simp [insertA, lookupA, hk, ih]

theorem lookupA_insertA_ne {α β : Type} [DecidableEq α]
    (l : List (α × β)) (a a' : α) (b : β) (h : a ≠ a') :
    lookupA (insertA l a b) a' = lookupA l a' := by
  induction l with
  | nil => simp [insertA, lookupA, h]
  | cons p rest ih =>
    obtain ⟨k, b'⟩ := p
    by_cases hk : k = a
    · subst hk
      simp [insertA, lookupA, h]
    · simp [insertA, lookupA, hk, ih]

theorem map_fst_modifyA {α β : Type} [DecidableEq α]
    (l : List (α × β)) (a : α) (f : β → β) :
    (modifyA l a f).map Prod.fst = l.map Prod.fst := by
  induction l with
  | nil => rfl
  | cons p rest ih =>
    obtain ⟨k, b⟩ := p
    by_cases hk : k = a <;> simp [modifyA, hk, ih]

theorem insertA_of_not_mem {α β : Type} [DecidableEq α]
    (l : List (α × β)) (a : α) (b : β) (h : lookupA l a = none) :
    insertA l a b = l ++ [(a, b)] := by
  induction l with
  | nil => rfl
  | cons p rest ih =>
    obtain ⟨k, b'⟩ := p
    by_cases hk : k = a
    · simp [lookupA, hk] at h
    · simp only [lookupA, if_neg hk] at h
      simp [insertA, hk, ih h]

theorem lookupA_eq_none_iff {α β : Type} [DecidableEq α]
    (l : List (α × β)) (a : α) :
    lookupA l a = none ↔ a ∉ l.map Prod.fst := by
  induction l with
  | nil => simp [lookupA]
  | cons p rest ih =>
    obtain ⟨k, b⟩ := p
    by_cases hk : k = a
    · simp [lookupA, hk]
    · have hk2 : ¬a = k := fun hc => hk hc.symm
      simp [lookupA, hk, ih, hk2]

theorem lookupA_isSome_of_mem {α β : Type} [DecidableEq α]
    {l : List (α × β)} {a : α} {b : β} (h : (a, b) ∈ l) :
    (lookupA l a).isSome := by
  induction l with
  | nil => simp at h
  | cons p rest ih =>
    obtain ⟨k, b'⟩ := p
    by_cases hk : k = a
    · simp [lookupA, hk]
    · simp only [List.mem_cons] at h
      rcases h with h | h
      · cases h; simp at hk
      · simpa [lookupA, hk] using ih h

theorem lookupA_mem {α β : Type} [DecidableEq α] {l : List (α × β)} {a : α} {b : β}
    (h : lookupA l a = some b) : (a, b) ∈ l := by
  induction l with
  | nil => simp [lookupA] at h
  | cons p rest ih =>
    obtain ⟨k, b'⟩ := p
    by_cases hk : k = a
    · subst hk
      simp [lookupA] at h
      simp [h]
    · simp only [lookupA, if_neg hk] at h
      exact List.mem_cons_of_mem _ (ih h)

theorem lookupA_map_value {α β γ : Type} [DecidableEq α]
    (l : List (α × β)) (g : β → γ) (a : α) :
    lookupA (l.map (fun p => (p.1, g p.2))) a = (lookupA l a).map g := by
  induction l with
  | nil => rfl
  | cons p rest ih =>
    obtain ⟨k, b⟩ := p
    by_cases hk : k = a <;> simp [lookupA, hk, ih]

theorem mem_keys_filterMap {α β : Type} (l : List (α × β)) (g : β → Option β) (a : α)
    (h : a ∈ (l.filterMap (fun p => (g p.2).map (fun b => (p.1, b)))).map Prod.fst) :
    a ∈ l.map Prod.fst := by
  induction l with
  | nil => simp at h
  | cons p rest ih =>
    obtain ⟨k, b⟩ := p
    cases hg : g b with
    | none =>
      simp only [List.filterMap_cons, hg, Option.map_none'] at h
      exact List.mem_cons_of_mem _ (ih h)
    | some b' =>
      simp only [List.filterMap_cons, hg, Option.map_some', List.map_cons,
        List.mem_cons] at h
      rcases h with h | h
      · simp [h]
      · exact List.mem_cons_of_mem _ (ih h)

theorem lookupA_filterMap {α β : Type} [DecidableEq α]
    (l : List (α × β)) (g : β → Option β)
    (hnd : (l.map Prod.fst).Nodup) (a : α) :
    lookupA (l.filterMap (fun p => (g p.2).map (fun b => (p.1, b)))) a =
      (lookupA l a).bind g := by
  induction l with
  | nil => rfl
  | cons p rest ih =>
    obtain ⟨k, b⟩ := p
    simp only [List.map_cons, List.nodup_cons] at hnd
    by_cases hk : k = a
    · subst hk
      cases hg : g b with
      | none =>
        simp only [List.filterMap_cons, hg, Option.map_none', lookupA]
        have hnone : lookupA (rest.filterMap (fun p => (g p.2).map (fun b => (p.1, b)))) k = none := by
          rw [lookupA_eq_none_iff]
          intro hmem
          exact hnd.1 (mem_keys_filterMap rest g k hmem)
        simp [lookupA, hnone, hg]
      | some b' =>
        simp [List.filterMap_cons, hg, lookupA]
    · cases hg : g b with
      | none =>
        simp only [List.filterMap_cons, hg, Option.map_none']
        simp [lookupA, hk, ih hnd.2]
      | some b' =>
        simp only [List.filterMap_cons, hg, Option.map_some']
        simp [lookupA, hk, ih hnd.2]

/-! ## Claim C4: the costing depth gate -/

/-- **C4.** A kernel invocation at depth strictly below `max_call_depth`
passes the costing module's depth check (it can only fail through the fee
reserve); at depth zero it succeeds outright; strictly between zero and the
bound the result is exactly the fee charge's result; and at depth equal to
`max_call_depth` it fails with `CostingError::MaxCallDepthLimitReached`. -/
theorem costing_before_invoke_depth_gate :
    ∀ (m : CostingModule) (current_depth input_size : Nat),
      (current_depth < m.max_call_depth →
        m.before_invoke current_depth input_size ≠
          .error CostingError.MaxCallDepthLimitReached) ∧
      (current_depth < m.max_call_depth → current_depth = 0 →
        m.before_invoke current_depth input_size = .ok ()) ∧
      (current_depth < m.max_call_depth → 0 < current_depth →
        m.before_invoke current_depth input_size =
          (match m.charge_invoke input_size with
           | .error e => .error (.FeeReserveError e)
           | .ok _ => .ok ())) ∧
      (current_depth = m.max_call_depth →
        m.before_invoke current_depth input_size =
          .error CostingError.MaxCallDepthLimitReached) := by
  intro m d sz
  refine ⟨?_, ?_, ?_, ?_⟩
  · intro hlt
    have hne : d ≠ m.max_call_depth := Nat.ne_of_lt hlt
    unfold CostingModule.before_invoke
    rw [if_neg hne]
    by_cases hd : 0 < d
    · rw [if_pos hd]
      cases m.charge_invoke sz with
      | error e => simp
      | ok u => simp
    · rw [if_neg hd]
      simp
  · intro hlt hz
    have hne : d ≠ m.max_call_depth := Nat.ne_of_lt hlt
    unfold CostingModule.before_invoke
    rw [if_neg hne, if_neg (by simp [hz])]
  · intro hlt hpos
    have hne : d ≠ m.max_call_depth := Nat.ne_of_lt hlt
    unfold CostingModule.before_invoke
    rw [if_neg hne, if_pos hpos]
  · intro heq
    unfold CostingModule.before_invoke
    rw [if_pos heq]

/-- Witness for C4 at `max_call_depth = 8`: depth 7 passes the depth check,
depth 8 is rejected. -/
theorem costing_before_invoke_depth_gate_witness :
    CostingModule.before_invoke ⟨8, fun _ => .ok ()⟩ 7 0 ≠
      .error CostingError.MaxCallDepthLimitReached ∧
    CostingModule.before_invoke ⟨8, fun _ => .ok ()⟩ 8 0 =
      .error CostingError.MaxCallDepthLimitReached :=
  ⟨(costing_before_invoke_depth_gate ⟨8, fun _ => .ok ()⟩ 7 0).1 (by decide),
   (costing_before_invoke_depth_gate ⟨8, fun _ => .ok ()⟩ 8 0).2.2.2 rfl⟩

/-! ## Claim C7: `generate_uuid` -/

/-- **C7.** For `next_id < u32::MAX`, `generate_uuid` returns the low 128
bits of `hash(tx_hash || next_id.to_le_bytes())` and advances `next_id` by
exactly one; it is a function of `(tx_hash, next_id)` only; at
`next_id = u32::MAX` it fails with `OutOfUUid`; at `u32::MAX - 1` it succeeds
and advances to `u32::MAX`. -/
theorem generate_uuid_spec :
    ∀ (hashFn : List Nat → List Nat) (s : TransactionRuntimeSubstate),
      (s.next_id < u32MAX →
        generate_uuid hashFn s =
          .ok (low128 (hashFn (s.hash ++ u32ToLeBytes s.next_id)),
               { s with next_id := s.next_id + 1 })) ∧
      (∀ s' : TransactionRuntimeSubstate, s.hash = s'.hash → s.next_id = s'.next_id →
        generate_uuid hashFn s = generate_uuid hashFn s') ∧
      (s.next_id = u32MAX → generate_uuid hashFn s = .error .OutOfUUid) ∧
      (s.next_id = u32MAX - 1 →
        generate_uuid hashFn s =
          .ok (low128 (hashFn (s.hash ++ u32ToLeBytes (u32MAX - 1))),
               { s with next_id := u32MAX })) := by
  intro hashFn s
  refine ⟨?_, ?_, ?_, ?_⟩
  · intro hlt
    have hne : s.next_id ≠ u32MAX := Nat.ne_of_lt hlt
    unfold generate_uuid
    rw [if_neg hne]
  · intro s' hh hn
    obtain ⟨h1, n1⟩ := s
    obtain ⟨h2, n2⟩ := s'
    simp only at hh hn
    subst hh
    subst hn
    rfl
  · intro heq
    unfold generate_uuid
    rw [if_pos heq]
  · intro heq
    have hne : s.next_id ≠ u32MAX := by
      rw [heq]; decide
    unfold generate_uuid
    rw [if_neg hne, heq]
    have : u32MAX - 1 + 1 = u32MAX := by decide
    rw [this]

/-- Witness for C7 with the identity in place of the hash function: success
and advancement one below the bound, `OutOfUUid` at the bound. -/
theorem generate_uuid_spec_witness :
    generate_uuid (fun l => l) ⟨[3], 4294967294⟩ =
      .ok (low128 ([3] ++ u32ToLeBytes 4294967294), ⟨[3], 4294967295⟩) ∧
    generate_uuid (fun l => l) ⟨[3], 4294967295⟩ = .error .OutOfUUid :=
  ⟨(generate_uuid_spec (fun l => l) ⟨[3], 4294967294⟩).1 (by decide),
   (generate_uuid_spec (fun l => l) ⟨[3], 4294967295⟩).2.2.1 rfl⟩

/-! ## Claim C2: module pipeline ordering -/

/-- **C2 is false as stated.** With the seven modules the claim lists all
enabled (and none failing), `on_init` invokes them as
execution-trace → events → runtime → node-move → auth → costing → limits —
not in the claimed order limits → costing → auth → node-move → runtime →
events → trace. (The mixer's own comment says: "Modules are applied in the
reverse order of initialization!") -/
theorem on_init_order_counterexample :
    SystemModuleMixer.on_init_invoked (E := Unit)
        ⟨false, true, true, true, true, true, true, true⟩ (fun _ => .ok ()) =
      [.execTrace, .txEvents, .txRuntime, .nodeMove, .auth, .costing, .limits] ∧
    ([SysModule.execTrace, .txEvents, .txRuntime, .nodeMove, .auth, .costing, .limits] ≠
      [SysModule.limits, .costing, .auth, .nodeMove, .txRuntime, .txEvents, .execTrace]) :=
  ⟨rfl, by decide⟩

/-- **C2 (amended).** The init and teardown orders are the reverse of what
the claim states: `on_init` consults the modules in the order
trace → events → runtime → node-move → auth → costing → limits →
kernel-trace, which is exactly the reverse of the declared dispatch order,
and `on_teardown` is a plain dispatch in the declared order (kernel-trace,
limits, costing, auth, node-move, runtime, events, trace). Within each
kernel operation the enabled modules run in the declared dispatch order and
the first module error short-circuits: when every enabled handler succeeds
all of them run in order, and when a handler fails, exactly the modules up to
and including the failing one run and its error becomes the result. -/
theorem module_pipeline_order :
    (onInitOrder = dispatchOrder.reverse) ∧
    (∀ em : EnabledModules, enabledIn em onInitOrder = (enabledIn em dispatchOrder).reverse) ∧
    (∀ (E : Type) (em : EnabledModules) (handlers : SysModule → Except E Unit),
      SystemModuleMixer.on_teardown em handlers =
        runHooks handlers (enabledIn em dispatchOrder)) ∧
    (∀ (E : Type) (handlers : SysModule → Except E Unit) (ms : List SysModule),
      ((∀ m ∈ ms, handlers m = .ok ()) →
        runHooks handlers ms = .ok () ∧ invokedModules handlers ms = ms) ∧
      (∀ (pre : List SysModule) (m : SysModule) (post : List SysModule) (e : E),
        ms = pre ++ m :: post → (∀ m' ∈ pre, handlers m' = .ok ()) →
        handlers m = .error e →
        runHooks handlers ms = .error e ∧ invokedModules handlers ms = pre ++ [m])) := by
  refine ⟨by decide, ?_, ?_, ?_⟩
  · intro em
    have h : onInitOrder = dispatchOrder.reverse := by decide
    rw [h]
    unfold enabledIn
    rw [List.filter_reverse]
  · intro E em handlers
    rfl
  · intro E handlers ms
    constructor
    · intro hok
      induction ms with
      | nil => exact ⟨rfl, rfl⟩
      | cons m rest ih =>
        have hm : handlers m = .ok () := hok m (List.mem_cons_self m rest)
        have hrest := ih (fun m' hm' => hok m' (List.mem_cons_of_mem m hm'))
        unfold runHooks invokedModules
        rw [hm]
        exact ⟨hrest.1, by rw [hrest.2]⟩
    · intro pre m post e hms hpre hm
      subst hms
      induction pre with
      | nil =>
        unfold runHooks invokedModules
        simp only [List.nil_append, List.cons_append]
        rw [hm]
        exact ⟨rfl, rfl⟩
      | cons p rest ih =>
        have hp : handlers p = .ok () := hpre p (List.mem_cons_self p rest)
        have hrest := ih (fun m' hm' => hpre m' (List.mem_cons_of_mem p hm'))
        unfold runHooks invokedModules
        simp only [List.cons_append]
        rw [hp]
        exact ⟨hrest.1, by rw [hrest.2]⟩

/-- Witness for C2 (amended): with all modules enabled and the costing hook
failing, a dispatched operation runs kernel-trace, limits and costing only,
and returns the costing error. -/
theorem module_pipeline_order_witness :
    runHooks (E := Nat) (fun m => if m = .costing then .error 5 else .ok ())
        (enabledIn EnabledModules.all dispatchOrder) = .error 5 ∧
    invokedModules (E := Nat) (fun m => if m = .costing then .error 5 else .ok ())
        (enabledIn EnabledModules.all dispatchOrder) =
      [.kernelTrace, .limits] ++ [.costing] :=
  (module_pipeline_order.2.2.2 Nat
      (fun m => if m = .costing then .error 5 else .ok ())
      (enabledIn EnabledModules.all dispatchOrder)).2
    [.kernelTrace, .limits] .costing [.auth, .nodeMove, .txRuntime, .txEvents, .execTrace] 5
    (by decide) (by intro m' hm'; fin_cases hm' <;> rfl) rfl

/-! ## Claim C8: the node-move policy -/

/-- **C8 is false as stated.** A proof whose restriction flag is already set
is *not* always rejected from moving downstream: when the callee is a
function of the resource-manager package, `prepare_move_downstream` returns
early and allows the move, leaving the proof untouched. -/
theorem node_move_counterexample :
    prepare_move_downstream proofEnvCx (.Object 0) resourceFnCallee = .ok proofEnvCx ∧
    prepare_move_downstream proofEnvCx (.Object 0) resourceFnCallee ≠
      .error (.CantMoveDownstream (.Object 0)) := by
  constructor
  · rfl
  · intro h
    rw [show prepare_move_downstream proofEnvCx (.Object 0) resourceFnCallee =
          .ok proofEnvCx from rfl] at h
    exact Except.noConfusion h

/-- **C8 (amended).** The node-move policy, with the resource-package
function-callee exception: a proof moved downstream to a callee that is a
function of the resource-manager package is always allowed and left
unchanged (even if already restricted). Otherwise: an already-restricted
proof is rejected with `CantMoveDownstream`; an unrestricted proof moved to
an auth-zone method of the resource-manager package stays unrestricted; an
unrestricted proof moved to any other callee has its restriction flag set.
Key-value-store and global nodes are always rejected from moving downstream
(`CantMoveDownstream`) and from moving upstream on frame pop
(`CantMoveUpstream`); plain object nodes move upstream freely. -/
theorem node_move_policy :
    (∀ (env : NodeEnv) (oid : Nat),
      (env.restrictProof oid).proof_restricted oid = true) ∧
    (∀ (env : NodeEnv) (oid : Nat) (callee : Actor),
      env.object_type_info oid = (.resourceManager, PROOF_BLUEPRINT) →
      ((callee.info = .Function ∧ callee.fn_identifier.package_address = .resourceManager) →
        prepare_move_downstream env (.Object oid) callee = .ok env) ∧
      (¬(callee.info = .Function ∧ callee.fn_identifier.package_address = .resourceManager) →
        env.proof_restricted oid = true →
        prepare_move_downstream env (.Object oid) callee =
          .error (.CantMoveDownstream (.Object oid))) ∧
      (∀ recv, callee.info = .Method recv →
        env.type_info recv = some (.Object .resourceManager AUTH_ZONE_BLUEPRINT) →
        env.proof_restricted oid = false →
        prepare_move_downstream env (.Object oid) callee = .ok env) ∧
      (∀ recv, callee.info = .Method recv →
        env.type_info recv ≠ some (.Object .resourceManager AUTH_ZONE_BLUEPRINT) →
        env.proof_restricted oid = false →
        prepare_move_downstream env (.Object oid) callee = .ok (env.restrictProof oid)) ∧
      (callee.info = .Function → callee.fn_identifier.package_address ≠ .resourceManager →
        env.proof_restricted oid = false →
        prepare_move_downstream env (.Object oid) callee = .ok (env.restrictProof oid))) ∧
    (∀ (env : NodeEnv) (callee : Actor) (i : Nat),
      prepare_move_downstream env (.KeyValueStore i) callee =
        .error (.CantMoveDownstream (.KeyValueStore i)) ∧
      prepare_move_downstream env (.GlobalObject i) callee =
        .error (.CantMoveDownstream (.GlobalObject i))) ∧
    (∀ i : Nat,
      prepare_move_upstream (.Object i) = .ok () ∧
      prepare_move_upstream (.KeyValueStore i) = .error (.CantMoveUpstream (.KeyValueStore i)) ∧
      prepare_move_upstream (.GlobalObject i) = .error (.CantMoveUpstream (.GlobalObject i))) := by
  refine ⟨fun env oid => by simp [NodeEnv.restrictProof], ?_, ?_, ?_⟩
  · intro env oid callee h
    refine ⟨?_, ?_, ?_, ?_, ?_⟩
    · intro hres
      simp [prepare_move_downstream, h, hres]
    · intro hnres hrestr
      simp [prepare_move_downstream, h, hnres, hrestr]
    · intro recv hmeth hti hflag
      have hnres : ¬(callee.info = .Function ∧
          callee.fn_identifier.package_address = .resourceManager) := by
        intro hc
        rw [hmeth] at hc
        exact AdditionalActorInfo.noConfusion hc.1
      have hchanged : changedToRestricted env callee.info = false := by
        rw [hmeth]
        simp only [changedToRestricted]
        rw [hti]
        simp
      simp [prepare_move_downstream, h, hnres, hflag, hchanged]
    · intro recv hmeth hti hflag
      have hnres : ¬(callee.info = .Function ∧
          callee.fn_identifier.package_address = .resourceManager) := by
        intro hc
        rw [hmeth] at hc
        exact AdditionalActorInfo.noConfusion hc.1
      have hchanged : changedToRestricted env callee.info = true := by
        rw [hmeth]
        simp only [changedToRestricted]
        cases hti2 : env.type_info recv with
        | none => rfl
        | some ti2 =>
          cases ti2 with
          | KeyValueStore => rfl
          | Object pkg bp =>
            have hne : ¬(pkg = .resourceManager ∧ bp = AUTH_ZONE_BLUEPRINT) := by
              intro hc
              apply hti
              rw [hti2, hc.1, hc.2]
            rw [not_and_or] at hne
            rcases hne with h1 | h1 <;> simp [h1]
      simp [prepare_move_downstream, h, hnres, hflag, hchanged]
    · intro hfn hpkg hflag
      have hnres : ¬(callee.info = .Function ∧
          callee.fn_identifier.package_address = .resourceManager) := by
        intro hc
        exact hpkg hc.2
      have hchanged : changedToRestricted env callee.info = true := by
        rw [hfn]
        rfl
      simp [prepare_move_downstream, h, hnres, hflag, hchanged]
  · intro env callee i
    exact ⟨rfl, rfl⟩
  · intro i
    exact ⟨rfl, rfl, rfl⟩

/-- Witness for C8 (amended): an unrestricted proof moved to a method on a
node of another package comes back with its restriction flag set, and a
key-value store cannot move downstream. -/
theorem node_move_policy_witness :
    prepare_move_downstream proofEnvU (.Object 0) methodCallee =
      .ok (proofEnvU.restrictProof 0) ∧
    prepare_move_downstream proofEnvU (.KeyValueStore 4) methodCallee =
      .error (.CantMoveDownstream (.KeyValueStore 4)) :=
  ⟨((node_move_policy.2.1 proofEnvU 0 methodCallee rfl).2.2.2.1 (.Object 5) rfl
      (by intro h; exact Option.noConfusion h) rfl),
   (node_move_policy.2.2.1 proofEnvU methodCallee 4).1⟩

/-! ## Claim C9: the role-graph cycle check -/

theorem mem_prune_iff (g : RoleGraph) (s : List Role) (x : Role) :
    x ∈ g.prune s ↔ x ∈ s ∧ ∃ y ∈ g.succs x, y ∈ s := by
  unfold RoleGraph.prune
  rw [List.mem_filter]
  simp [List.any_eq_true]

theorem selfreach_has_edge {g : RoleGraph} {x : Role}
    (h : Relation.TransGen g.edge x x) :
    ∃ y, g.edge x y ∧ Relation.TransGen g.edge y y := by
  obtain ⟨y, hxy, hyx⟩ := Relation.TransGen.head'_iff.mp h
  exact ⟨y, hxy, Relation.TransGen.tail' hyx hxy⟩

theorem selfreach_mem_vertices {g : RoleGraph} {x : Role}
    (h : Relation.TransGen g.edge x x) : x ∈ g.vertices := by
  obtain ⟨y, hxy, _⟩ := selfreach_has_edge h
  by_contra hnot
  have hnone : lookupA g.roles x = none :=
    (lookupA_eq_none_iff g.roles x).mpr hnot
  have : g.succs x = [] := by
    unfold RoleGraph.succs
    rw [hnone]
    rfl
  rw [RoleGraph.edge, this] at hxy
  exact List.not_mem_nil y hxy

theorem cycle_survives_prune {g : RoleGraph} {s : List Role}
    (hs : ∀ x, Relation.TransGen g.edge x x → x ∈ s) :
    ∀ x, Relation.TransGen g.edge x x → x ∈ g.prune s := by
  intro x hx
  obtain ⟨y, hxy, hyy⟩ := selfreach_has_edge hx
  rw [mem_prune_iff]
  exact ⟨hs x hx, y, hxy, hs y hyy⟩

theorem cycle_survives_pruneN (g : RoleGraph) :
    ∀ (k : Nat) (s : List Role),
      (∀ x, Relation.TransGen g.edge x x → x ∈ s) →
      ∀ x, Relation.TransGen g.edge x x → x ∈ g.pruneN k s := by
  intro k
  induction k with
  | zero => intro s hs x hx; exact hs x hx
  | succ n ih =>
    intro s hs x hx
    exact ih (g.prune s) (cycle_survives_prune hs) x hx

/-- **C9.** Any directed cycle in the role graph makes the cycle check fail
with `CycleCheckError`, and every role graph the check accepts has no
directed cycle (a cycle through role `r` is a nonempty requirement path
`r →⁺ r`). -/
theorem role_graph_cycle_check :
    ∀ g : RoleGraph,
      ((∃ r, Relation.TransGen g.edge r r) →
        check_role_graph g = .error .CycleCheckError) ∧
      (check_role_graph g = .ok () → ∀ r, ¬ Relation.TransGen g.edge r r) := by
  intro g
  have key : ∀ r, Relation.TransGen g.edge r r →
      check_role_graph g = .error .CycleCheckError := by
    intro r hr
    have hmem : r ∈ g.pruneN g.roles.length g.vertices :=
      cycle_survives_pruneN g g.roles.length g.vertices
        (fun x hx => selfreach_mem_vertices hx) r hr
    unfold check_role_graph
    rw [if_neg ?_]
    intro hempty
    rw [List.isEmpty_iff] at hempty
    rw [hempty] at hmem
    exact List.not_mem_nil r hmem
  constructor
  · rintro ⟨r, hr⟩
    exact key r hr
  · intro hok r hr
    rw [key r hr] at hok
    exact Except.noConfusion hok

/-- Witness for C9: the two-role cycle of the `access_rules.rs` test vectors
is rejected, and the acyclic variant accepted by the check indeed has no
cycle through either role. -/
theorem role_graph_cycle_check_witness :
    check_role_graph gCyclic = .error .CycleCheckError ∧
    ¬ Relation.TransGen gAcyclic.edge 0 0 :=
  ⟨(role_graph_cycle_check gCyclic).1
      ⟨0, Relation.TransGen.head
            (show (1 : Role) ∈ gCyclic.succs 0 by decide)
            (Relation.TransGen.single (show (0 : Role) ∈ gCyclic.succs 1 by decide))⟩,
   (role_graph_cycle_check gAcyclic).2 rfl 0⟩

/-! ## Claim C1: revert of non-force-write changes -/

theorem lookupA_revert (t : Track) (hnd : (t.loaded_substates.map Prod.fst).Nodup)
    (a : Addr) :
    lookupA (t.revert_non_force_write_changes).loaded_substates a =
      (lookupA t.loaded_substates a).bind revertEntry := by
  unfold Track.revert_non_force_write_changes
  exact lookupA_filterMap t.loaded_substates revertEntry hnd a

/-- **C1.** After `revert_non_force_write_changes`: a loaded entry whose
meta-state is a force-write snapshot `Existing/Updated(Some v)` remains, with
its value restored to the snapshot `v` taken when its `FORCE_WRITE` lock was
released; every other loaded entry is removed; and no entry appears that was
not loaded — so only force-written substates survive an abort, at their
snapshotted values. -/
theorem track_revert_non_force_write_changes (t : Track) (hwf : t.Wf) (a : Addr) :
    (∀ ls v, lookupA t.loaded_substates a = some ls →
        ls.meta_state = .Existing (.Updated (some v)) →
        lookupA (t.revert_non_force_write_changes).loaded_substates a =
          some { ls with substate := v }) ∧
    (∀ ls, lookupA t.loaded_substates a = some ls →
        (∀ v, ls.meta_state ≠ .Existing (.Updated (some v))) →
        lookupA (t.revert_non_force_write_changes).loaded_substates a = none) ∧
    (lookupA t.loaded_substates a = none →
        lookupA (t.revert_non_force_write_changes).loaded_substates a = none) := by
  refine ⟨?_, ?_, ?_⟩
  · intro ls v hls hmeta
    rw [lookupA_revert t hwf.loaded_nodup a, hls, Option.some_bind']
    unfold revertEntry
    rw [hmeta]
  · intro ls hls hmeta
    rw [lookupA_revert t hwf.loaded_nodup a, hls, Option.some_bind']
    unfold revertEntry
    cases hm : ls.meta_state with
    | New => rfl
    | Existing es =>
      cases es with
      | Loaded => rfl
      | Updated s =>
        cases s with
        | none => rfl
        | some v => exact absurd hm (hmeta v)
  · intro hnone
    rw [lookupA_revert t hwf.loaded_nodup a, hnone]
    rfl

/-- Witness for C1 on `trackReverted`: the force-written entry survives with
its snapshot value 7 restored, the plainly-updated entry is dropped. -/
theorem track_revert_non_force_write_changes_witness :
    lookupA (trackReverted.revert_non_force_write_changes).loaded_substates (0, 0, 0) =
      some ⟨7, .Read 0, .Existing (.Updated (some 7))⟩ ∧
    lookupA (trackReverted.revert_non_force_write_changes).loaded_substates (1, 0, 0) =
      none :=
  ⟨(track_revert_non_force_write_changes trackReverted
        ⟨by decide, List.nodup_nil, by simp [trackReverted]⟩ (0, 0, 0)).1
      ⟨99, .Read 0, .Existing (.Updated (some 7))⟩ 7 rfl rfl,
   (track_revert_non_force_write_changes trackReverted
        ⟨by decide, List.nodup_nil, by simp [trackReverted]⟩ (1, 0, 0)).2.1
      ⟨5, .Read 0, .Existing (.Updated none)⟩ rfl
      (by intro v h; simp at h)⟩

/-! ## Claim C6: finalize -/

/-- **C6.** `finalize` emits exactly one record per loaded substate (its key
list is the loaded-substate key list, hence without duplicates), a `New`
entry yields `Create` with its current value, an `Existing` entry (loaded or
updated) yields `Update` with its current value, and no record exists for a
substate that was never loaded. -/
theorem track_finalize (t : Track) (hwf : t.Wf) :
    (t.finalize.map Prod.fst = t.loaded_substates.map Prod.fst) ∧
    (t.finalize.map Prod.fst).Nodup ∧
    (∀ a ls, lookupA t.loaded_substates a = some ls →
      (ls.meta_state = .New →
        lookupA t.finalize a = some (.Create ls.substate)) ∧
      (∀ es, ls.meta_state = .Existing es →
        lookupA t.finalize a = some (.Update ls.substate))) ∧
    (∀ a, lookupA t.loaded_substates a = none → lookupA t.finalize a = none) := by
  have hkeys : t.finalize.map Prod.fst = t.loaded_substates.map Prod.fst := by
    unfold Track.finalize
    rw [List.map_map]
    rfl
  have hlook : ∀ a, lookupA t.finalize a =
      (lookupA t.loaded_substates a).map finalizeEntry := by
    intro a
    unfold Track.finalize
    exact lookupA_map_value t.loaded_substates finalizeEntry a
  refine ⟨hkeys, ?_, ?_, ?_⟩
  · rw [hkeys]
    exact hwf.loaded_nodup
  · intro a ls hls
    constructor
    · intro hnew
      rw [hlook a, hls]
      simp only [Option.map_some']
      unfold finalizeEntry
      rw [hnew]
    · intro es hex
      rw [hlook a, hls]
      simp only [Option.map_some']
      unfold finalizeEntry
      rw [hex]
  · intro a hnone
    rw [hlook a, hnone]
    rfl

/-- Witness for C6 on `trackMixed`: the loaded entry yields `Update 7`, the
`New` entry yields `Create 5`. -/
theorem track_finalize_witness :
    lookupA trackMixed.finalize (0, 0, 0) = some (.Update 7) ∧
    lookupA trackMixed.finalize (1, 0, 0) = some (.Create 5) :=
  ⟨((track_finalize trackMixed
        ⟨by decide, List.nodup_nil, by simp [trackMixed]⟩).2.2.1 (0, 0, 0)
      ⟨7, .Read 0, .Existing .Loaded⟩ rfl).2 .Loaded rfl,
   ((track_finalize trackMixed
        ⟨by decide, List.nodup_nil, by simp [trackMixed]⟩).2.2.1 (1, 0, 0)
      ⟨5, .Read 0, .New⟩ rfl).1 rfl⟩

/-! ## Claim C5: `UNMODIFIED_BASE` acquisition -/

theorem acquire_lock_of_loaded (t : Track) (a : Addr) (flags : LockFlags)
    (ls : LoadedSubstate) (h : lookupA t.loaded_substates a = some ls) :
    t.acquire_lock a flags =
      (if flags.unmodified_base then
        match ls.meta_state with
        | .New => (.error (.LockUnmodifiedBaseOnNewSubstate a.1 a.2.1 a.2.2), t)
        | .Existing (.Updated _) =>
          (.error (.LockUnmodifiedBaseOnOnUpdatedSubstate a.1 a.2.1 a.2.2), t)
        | .Existing .Loaded => t.acquireLockStateCheck a flags ls
      else t.acquireLockStateCheck a flags ls) := by
  unfold Track.acquire_lock
  simp only [h]

theorem acquireLockStateCheck_error (t : Track) (a : Addr) (flags : LockFlags)
    (ls : LoadedSubstate) :
    ∀ e, (t.acquireLockStateCheck a flags ls).1 = .error e →
      e = .SubstateLocked a.1 a.2.1 a.2.2 := by
  obtain ⟨v, lsl, m⟩ := ls
  intro e he
  cases lsl with
  | Read n =>
    by_cases hm : flags.is_mutable
    · by_cases hn : n = 0
      · simp [Track.acquireLockStateCheck, hm, hn] at he
      · simp [Track.acquireLockStateCheck, hm, hn] at he
        exact he.symm
    · simp [Track.acquireLockStateCheck, hm] at he
  | Write =>
    simp [Track.acquireLockStateCheck] at he
    exact he.symm

/-- **C5.** `acquire_lock` with `UNMODIFIED_BASE` fails on a substate
modified in this transaction and only there: on a `New` (transaction-created)
substate it fails with `LockUnmodifiedBaseOnNewSubstate`, on an
`Existing/Updated` substate with `LockUnmodifiedBaseOnOnUpdatedSubstate`; on
an `Existing/Loaded` substate it proceeds past the check (any remaining
failure is the lock-exclusion error `SubstateLocked`), and on a substate
freshly loaded from the database it succeeds outright. -/
theorem track_unmodified_base (t : Track) (a : Addr) (flags : LockFlags)
    (hub : flags.unmodified_base = true) :
    (∀ ls, lookupA t.loaded_substates a = some ls →
      (ls.meta_state = .New →
        t.acquire_lock a flags =
          (.error (.LockUnmodifiedBaseOnNewSubstate a.1 a.2.1 a.2.2), t)) ∧
      (∀ s, ls.meta_state = .Existing (.Updated s) →
        t.acquire_lock a flags =
          (.error (.LockUnmodifiedBaseOnOnUpdatedSubstate a.1 a.2.1 a.2.2), t)) ∧
      (ls.meta_state = .Existing .Loaded →
        ∀ e, (t.acquire_lock a flags).1 = .error e →
          e = .SubstateLocked a.1 a.2.1 a.2.2)) ∧
    (∀ v, lookupA t.loaded_substates a = none → t.db a = some v →
      (t.acquire_lock a flags).1 = .ok t.next_lock_id) := by
  constructor
  · intro ls hls
    refine ⟨?_, ?_, ?_⟩
    · intro hnew
      rw [acquire_lock_of_loaded t a flags ls hls, if_pos hub, hnew]
    · intro s hupd
      rw [acquire_lock_of_loaded t a flags ls hls, if_pos hub, hupd]
    · intro hloaded e he
      rw [acquire_lock_of_loaded t a flags ls hls, if_pos hub, hloaded] at he
      exact acquireLockStateCheck_error t a flags ls e he
  · intro v hnone hdb
    have hfresh : lookupA (t.add_loaded_substate a v).loaded_substates a =
        some ⟨v, .Read 0, .Existing .Loaded⟩ := by
      unfold Track.add_loaded_substate
      exact lookupA_insertA_self t.loaded_substates a _
    unfold Track.acquire_lock
    simp only [hnone, hdb, hfresh, if_pos hub]
    by_cases hm : flags.is_mutable
    · simp [Track.acquireLockStateCheck, Track.new_lock_handle,
        Track.add_loaded_substate, hm]
    · simp [Track.acquireLockStateCheck, Track.new_lock_handle,
        Track.add_loaded_substate, hm]

/-- Witness for C5: with `UNMODIFIED_BASE` set, acquiring the `New` entry of
`trackMixed` fails with `LockUnmodifiedBaseOnNewSubstate`, while acquiring a
substate fresh from the database on the empty track succeeds with handle 0. -/
theorem track_unmodified_base_witness :
    trackMixed.acquire_lock (1, 0, 0) ⟨false, false, true⟩ =
      (.error (.LockUnmodifiedBaseOnNewSubstate 1 0 0), trackMixed) ∧
    (trackEmpty.acquire_lock (0, 0, 0) ⟨false, false, true⟩).1 = .ok 0 :=
  ⟨(track_unmodified_base trackMixed (1, 0, 0) ⟨false, false, true⟩ rfl).1
      ⟨5, .Read 0, .New⟩ rfl |>.1 rfl,
   (track_unmodified_base trackEmpty (0, 0, 0) ⟨false, false, true⟩ rfl).2 7 rfl rfl⟩

/-! ## Claim C10: closing an unwritten `MUTABLE` lock marks the substate updated -/

/-- **C10.** Releasing a write lock taken without `FORCE_WRITE` on a substate
whose meta-state is `Existing/Loaded` sets the meta-state to
`Existing/Updated(None)` even though `update_substate` was never called on the
handle; consequently a later `UNMODIFIED_BASE` acquisition on that substate
fails with `LockUnmodifiedBaseOnOnUpdatedSubstate`, and the substate is
dropped by `revert_non_force_write_changes`. -/
theorem track_open_close_marks_updated (t : Track) (h : Nat) (a : Addr)
    (flags : LockFlags) (ls : LoadedSubstate) (hwf : t.Wf)
    (hlock : lookupA t.locks h = some (a, flags))
    (_hmut : flags.is_mutable = true) (hfw : flags.force_write = false)
    (hload : lookupA t.loaded_substates a = some ls)
    (hws : ls.lock_state = .Write) (hmeta : ls.meta_state = .Existing .Loaded) :
    ∃ t', t.release_lock h = some t' ∧
      lookupA t'.loaded_substates a =
        some { ls with lock_state := .Read 0, meta_state := .Existing (.Updated none) } ∧
      (∀ fl2 : LockFlags, fl2.unmodified_base = true →
        (t'.acquire_lock a fl2).1 =
          .error (.LockUnmodifiedBaseOnOnUpdatedSubstate a.1 a.2.1 a.2.2)) ∧
      lookupA (t'.revert_non_force_write_changes).loaded_substates a = none := by
  have hrel : t.release_lock h = some
      { t with
          locks := removeA t.locks h,
          loaded_substates := modifyA t.loaded_substates a (fun l =>
            { l with
                lock_state := SubstateLockState.no_lock,
                meta_state := releaseWriteMeta l.meta_state }) } := by
    unfold Track.release_lock
    simp only [hlock, hload, hws, hfw]
    simp
  have hload' : lookupA (modifyA t.loaded_substates a (fun l =>
      { l with
          lock_state := SubstateLockState.no_lock,
          meta_state := releaseWriteMeta l.meta_state })) a =
      some { ls with lock_state := .Read 0, meta_state := .Existing (.Updated none) } := by
    rw [lookupA_modifyA_self, hload]
    simp only [Option.map_some']
    rw [show releaseWriteMeta ls.meta_state = .Existing (.Updated none) by
          rw [hmeta]; rfl]
    rfl
  refine ⟨_, hrel, hload', ?_, ?_⟩
  · intro fl2 hub2
    rw [acquire_lock_of_loaded _ a fl2 _ hload', if_pos hub2]
  · have hnd : ((modifyA t.loaded_substates a (fun l =>
        { l with
            lock_state := SubstateLockState.no_lock,
            meta_state := releaseWriteMeta l.meta_state })).map Prod.fst).Nodup := by
      rw [map_fst_modifyA]
      exact hwf.loaded_nodup
    rw [lookupA_revert _ hnd a]
    simp only
    rw [hload']
    rfl

/-- Witness for C10 on `trackWriteLocked`: releasing the never-written
`MUTABLE` lock leaves the substate `Updated(None)`, a later `UNMODIFIED_BASE`
acquisition fails, and the revert drops the substate. -/
theorem track_open_close_marks_updated_witness :
    ∃ t', trackWriteLocked.release_lock 0 = some t' ∧
      lookupA t'.loaded_substates (0, 0, 0) =
        some ⟨7, .Read 0, .Existing (.Updated none)⟩ ∧
      (∀ fl2 : LockFlags, fl2.unmodified_base = true →
        (t'.acquire_lock (0, 0, 0) fl2).1 =
          .error (.LockUnmodifiedBaseOnOnUpdatedSubstate 0 0 0)) ∧
      lookupA (t'.revert_non_force_write_changes).loaded_substates (0, 0, 0) = none :=
  track_open_close_marks_updated trackWriteLocked 0 (0, 0, 0) ⟨true, false, false⟩
    ⟨7, .Write, .Existing .Loaded⟩
    ⟨by decide, by decide, by simp [trackWriteLocked]⟩
    rfl rfl rfl rfl rfl rfl

/-! ## Claim C3: lock exclusion and bookkeeping -/

theorem keys_removeA_subset {α β : Type} [DecidableEq α]
    {l : List (α × β)} {k : α} {x : α}
    (h : x ∈ (removeA l k).map Prod.fst) : x ∈ l.map Prod.fst := by
  induction l with
  | nil => simp [removeA] at h
  | cons p rest ih =>
    obtain ⟨k', b⟩ := p
    by_cases hk : k' = k
    · simp only [removeA, if_pos hk] at h
      exact List.mem_cons_of_mem _ h
    · simp only [removeA, if_neg hk, List.map_cons, List.mem_cons] at h ⊢
      rcases h with h | h
      · exact Or.inl h
      · exact Or.inr (ih h)

theorem mem_removeA_subset {α β : Type} [DecidableEq α]
    {l : List (α × β)} {k : α} {x : α × β}
    (h : x ∈ removeA l k) : x ∈ l := by
  induction l with
  | nil => simp [removeA] at h
  | cons p rest ih =>
    by_cases hk : p.1 = k
    · rw [show removeA (p :: rest) k = rest by
        obtain ⟨k', b⟩ := p
        simp only [removeA, if_pos hk]] at h
      exact List.mem_cons_of_mem _ h
    · rw [show removeA (p :: rest) k = p :: removeA rest k by
        obtain ⟨k', b⟩ := p
        simp only [removeA, if_neg hk]] at h
      rcases List.mem_cons.mp h with h | h
      · exact h ▸ List.mem_cons_self _ _
      · exact List.mem_cons_of_mem _ (ih h)

theorem nodup_keys_removeA {α β : Type} [DecidableEq α]
    {l : List (α × β)} (k : α)
    (h : (l.map Prod.fst).Nodup) : ((removeA l k).map Prod.fst).Nodup := by
  induction l with
  | nil => simp [removeA]
  | cons p rest ih =>
    obtain ⟨k', b⟩ := p
    simp only [List.map_cons, List.nodup_cons] at h
    by_cases hk : k' = k
    · simp only [removeA, if_pos hk]
      exact h.2
    · simp only [removeA, if_neg hk, List.map_cons, List.nodup_cons]
      exact ⟨fun hmem => h.1 (keys_removeA_subset hmem), ih h.2⟩

theorem countP_removeA {α β : Type} [DecidableEq α]
    (l : List (α × β)) (k : α) (v : β) (p : α × β → Bool)
    (hnd : (l.map Prod.fst).Nodup) (hl : lookupA l k = some v) :
    l.countP p = (removeA l k).countP p + (if p (k, v) then 1 else 0) := by
  induction l with
  | nil => simp [lookupA] at hl
  | cons q rest ih =>
    obtain ⟨k', b⟩ := q
    simp only [List.map_cons, List.nodup_cons] at hnd
    by_cases hk : k' = k
    · subst hk
      have hv : b = v := by
        simpa [lookupA] using hl
      subst hv
      simp only [removeA, if_pos rfl]
      exact List.countP_cons _ _ _
    · simp only [lookupA, if_neg hk] at hl
      simp only [removeA, if_neg hk]
      rw [List.countP_cons, List.countP_cons, ih hnd.2 hl]
      omega

theorem countP_insertA_fresh {α β : Type} [DecidableEq α]
    (l : List (α × β)) (k : α) (v : β) (p : α × β → Bool)
    (h : lookupA l k = none) :
    (insertA l k v).countP p = l.countP p + (if p (k, v) then 1 else 0) := by
  rw [insertA_of_not_mem l k v h, List.countP_append]
  simp [List.countP_cons]

theorem map_fst_insertA_of_mem {α β : Type} [DecidableEq α]
    {l : List (α × β)} {k : α} {v' : β} (v : β)
    (h : lookupA l k = some v') :
    (insertA l k v).map Prod.fst = l.map Prod.fst := by
  induction l with
  | nil => simp [lookupA] at h
  | cons p rest ih =>
    obtain ⟨k', b⟩ := p
    by_cases hk : k' = k
    · simp [insertA, hk]
    · simp only [lookupA, if_neg hk] at h
      simp [insertA, hk, ih h]

theorem lockId_fresh (t : Track) (hwf : t.Wf) :
    lookupA t.locks t.next_lock_id = none := by
  rw [lookupA_eq_none_iff]
  intro hmem
  obtain ⟨p, hp, hfst⟩ := List.mem_map.mp hmem
  have hlt := hwf.locks_fresh p hp
  rw [hfst] at hlt
  exact Nat.lt_irrefl _ hlt

theorem new_lock_handle_wf (t : Track) (a : Addr) (flags : LockFlags) (hwf : t.Wf) :
    (t.new_lock_handle a flags).2.Wf := by
  have hfresh := lockId_fresh t hwf
  refine ⟨hwf.loaded_nodup, ?_, ?_⟩
  · show ((insertA t.locks t.next_lock_id (a, flags)).map Prod.fst).Nodup
    rw [insertA_of_not_mem _ _ _ hfresh, List.map_append, List.nodup_append]
    refine ⟨hwf.locks_nodup, List.nodup_singleton _, ?_⟩
    intro x hx hx2
    simp only [List.map_cons, List.map_nil, List.mem_singleton] at hx2
    subst hx2
    exact (lookupA_eq_none_iff t.locks t.next_lock_id).mp hfresh hx
  · intro p hp
    show p.1 < t.next_lock_id + 1
    rw [show (t.new_lock_handle a flags).2.locks =
          insertA t.locks t.next_lock_id (a, flags) from rfl,
        insertA_of_not_mem _ _ _ hfresh] at hp
    rcases List.mem_append.mp hp with hp | hp
    · exact Nat.lt_succ_of_lt (hwf.locks_fresh p hp)
    · simp only [List.mem_singleton] at hp
      subst hp
      exact Nat.lt_succ_self _

theorem modify_loaded_wf (t : Track) (a : Addr) (f : LoadedSubstate → LoadedSubstate)
    (hwf : t.Wf) :
    Track.Wf { t with loaded_substates := modifyA t.loaded_substates a f } := by
  refine ⟨?_, hwf.locks_nodup, hwf.locks_fresh⟩
  show ((modifyA t.loaded_substates a f).map Prod.fst).Nodup
  rw [map_fst_modifyA]
  exact hwf.loaded_nodup

theorem add_loaded_wf (t : Track) (a : Addr) (v : Value) (hwf : t.Wf)
    (hnone : lookupA t.loaded_substates a = none) :
    (t.add_loaded_substate a v).Wf := by
  refine ⟨?_, hwf.locks_nodup, hwf.locks_fresh⟩
  show ((insertA t.loaded_substates a _).map Prod.fst).Nodup
  rw [insertA_of_not_mem _ _ _ hnone, List.map_append, List.nodup_append]
  refine ⟨hwf.loaded_nodup, List.nodup_singleton _, ?_⟩
  intro x hx hx2
  simp only [List.map_cons, List.map_nil, List.mem_singleton] at hx2
  subst hx2
  exact (lookupA_eq_none_iff _ _).mp hnone hx

theorem counts_new_lock_handle (t : Track) (a : Addr) (flags : LockFlags)
    (hwf : t.Wf) (a' : Addr) :
    (t.new_lock_handle a flags).2.readLockCount a' =
      t.readLockCount a' + (if a = a' ∧ flags.is_mutable = false then 1 else 0) ∧
    (t.new_lock_handle a flags).2.writeLockCount a' =
      t.writeLockCount a' + (if a = a' ∧ flags.is_mutable = true then 1 else 0) := by
  have hfresh := lockId_fresh t hwf
  unfold Track.new_lock_handle Track.readLockCount Track.writeLockCount
  simp only
  rw [countP_insertA_fresh _ _ _ _ hfresh, countP_insertA_fresh _ _ _ _ hfresh]
  constructor
  · by_cases ha : a = a' <;> cases hm : flags.is_mutable <;> simp [ha, hm]
  · by_cases ha : a = a' <;> cases hm : flags.is_mutable <;> simp [ha, hm]

theorem counts_modify_loaded (t : Track) (a : Addr) (f : LoadedSubstate → LoadedSubstate)
    (a' : Addr) :
    Track.readLockCount { t with loaded_substates := modifyA t.loaded_substates a f } a' =
      t.readLockCount a' ∧
    Track.writeLockCount { t with loaded_substates := modifyA t.loaded_substates a f } a' =
      t.writeLockCount a' :=
  ⟨rfl, rfl⟩

theorem counts_add_loaded (t : Track) (a : Addr) (v : Value) (a' : Addr) :
    (t.add_loaded_substate a v).readLockCount a' = t.readLockCount a' ∧
    (t.add_loaded_substate a v).writeLockCount a' = t.writeLockCount a' :=
  ⟨rfl, rfl⟩

/-- The four possible outcomes of the read/write-permission check. -/
theorem stateCheck_cases (t : Track) (a : Addr) (flags : LockFlags)
    (ls : LoadedSubstate) :
    (∃ n, ls.lock_state = .Read n ∧ flags.is_mutable = true ∧ n ≠ 0 ∧
      t.acquireLockStateCheck a flags ls =
        (.error (.SubstateLocked a.1 a.2.1 a.2.2), t)) ∨
    (ls.lock_state = .Write ∧
      t.acquireLockStateCheck a flags ls =
        (.error (.SubstateLocked a.1 a.2.1 a.2.2), t)) ∨
    (ls.lock_state = .Read 0 ∧ flags.is_mutable = true ∧
      t.acquireLockStateCheck a flags ls =
        (.ok t.next_lock_id,
         (Track.new_lock_handle
           { t with loaded_substates :=
               modifyA t.loaded_substates a (fun l => { l with lock_state := .Write }) }
           a flags).2)) ∨
    (∃ n, ls.lock_state = .Read n ∧ flags.is_mutable = false ∧
      t.acquireLockStateCheck a flags ls =
        (.ok t.next_lock_id,
         (Track.new_lock_handle
           { t with loaded_substates :=
               modifyA t.loaded_substates a (fun l => { l with lock_state := .Read (n + 1) }) }
           a flags).2)) := by
  cases hl : ls.lock_state with
  | Write =>
    refine Or.inr (Or.inl ⟨rfl, ?_⟩)
    simp [Track.acquireLockStateCheck, hl]
  | Read n =>
    cases hm : flags.is_mutable
    · refine Or.inr (Or.inr (Or.inr ⟨n, rfl, rfl, ?_⟩))
      simp [Track.acquireLockStateCheck, hl, hm, Track.new_lock_handle]
    · by_cases hn : n = 0
      · subst hn
        refine Or.inr (Or.inr (Or.inl ⟨rfl, rfl, ?_⟩))
        simp [Track.acquireLockStateCheck, hl, hm, Track.new_lock_handle]
      · refine Or.inl ⟨n, rfl, rfl, hn, ?_⟩
        simp [Track.acquireLockStateCheck, hl, hm, hn]

/-- The three possible success shapes of `release_lock`. -/
theorem release_lock_cases (t : Track) (h : Nat) (t' : Track)
    (hrel : t.release_lock h = some t') :
    ∃ a flags ls, lookupA t.locks h = some (a, flags) ∧
      lookupA t.loaded_substates a = some ls ∧
      ((∃ n, ls.lock_state = .Read n ∧
        t' = { t with
          locks := removeA t.locks h,
          loaded_substates := modifyA t.loaded_substates a (fun l =>
            { l with lock_state := .Read (n - 1) }) }) ∨
       (ls.lock_state = .Write ∧ flags.force_write = true ∧
        t' = { t with
          locks := removeA t.locks h,
          loaded_substates := modifyA t.loaded_substates a (fun l =>
            { l with
                lock_state := SubstateLockState.no_lock,
                meta_state := .Existing (.Updated (some l.substate)) }) }) ∨
       (ls.lock_state = .Write ∧ flags.force_write = false ∧
        t' = { t with
          locks := removeA t.locks h,
          loaded_substates := modifyA t.loaded_substates a (fun l =>
            { l with
                lock_state := SubstateLockState.no_lock,
                meta_state := releaseWriteMeta l.meta_state }) })) := by
  unfold Track.release_lock at hrel
  cases hlock : lookupA t.locks h with
  | none => rw [hlock] at hrel; exact Option.noConfusion hrel
  | some pfl =>
    obtain ⟨a, flags⟩ := pfl
    rw [hlock] at hrel
    simp only at hrel
    cases hload : lookupA t.loaded_substates a with
    | none => rw [hload] at hrel; exact Option.noConfusion hrel
    | some ls =>
      rw [hload] at hrel
      obtain ⟨v, lsl, m⟩ := ls
      refine ⟨a, flags, ⟨v, lsl, m⟩, rfl, hload, ?_⟩
      cases lsl with
      | Read n =>
        have hrel2 : some { t with
            locks := removeA t.locks h,
            loaded_substates := modifyA t.loaded_substates a (fun l =>
              { l with lock_state := .Read (n - 1) }) } = some t' := hrel
        exact Or.inl ⟨n, rfl, (Option.some.injEq _ _ |>.mp hrel2).symm⟩
      | Write =>
        cases hfw : flags.force_write
        · rw [hfw] at hrel
          have hrel2 : some { t with
              locks := removeA t.locks h,
              loaded_substates := modifyA t.loaded_substates a (fun l =>
                { l with
                    lock_state := SubstateLockState.no_lock,
                    meta_state := releaseWriteMeta l.meta_state }) } = some t' := hrel
          exact Or.inr (Or.inr ⟨rfl, rfl, (Option.some.injEq _ _ |>.mp hrel2).symm⟩)
        · rw [hfw] at hrel
          cases m with
          | New => exact Option.noConfusion hrel
          | Existing es =>
            have hrel2 : some { t with
                locks := removeA t.locks h,
                loaded_substates := modifyA t.loaded_substates a (fun l =>
                  { l with
                      lock_state := SubstateLockState.no_lock,
                      meta_state := .Existing (.Updated (some l.substate)) }) } = some t' := hrel
            exact Or.inr (Or.inl ⟨rfl, rfl, (Option.some.injEq _ _ |>.mp hrel2).symm⟩)

theorem consistentAt_iff (t : Track) (a : Addr) :
    t.consistentAt a ↔
      ((∀ ls, lookupA t.loaded_substates a = some ls →
        (∀ n, ls.lock_state = .Read n →
          t.readLockCount a = n ∧ t.writeLockCount a = 0) ∧
        (ls.lock_state = .Write →
          t.writeLockCount a = 1 ∧ t.readLockCount a = 0)) ∧
      (lookupA t.loaded_substates a = none →
        t.readLockCount a = 0 ∧ t.writeLockCount a = 0)) := by
  unfold Track.consistentAt
  cases h : lookupA t.loaded_substates a with
  | none =>
    constructor
    · intro hc
      exact ⟨fun ls hls => Option.noConfusion hls, fun _ => hc⟩
    · intro hc
      exact hc.2 rfl
  | some ls =>
    constructor
    · intro hc
      refine ⟨?_, fun hn => Option.noConfusion hn⟩
      intro ls' hls'
      rw [(Option.some.injEq _ _).mp hls'.symm]
      exact hc
    · intro hc
      exact hc.1 ls rfl

theorem consistent_add_loaded (t : Track) (a : Addr) (v : Value)
    (hcons : t.locksConsistent) (hnone : lookupA t.loaded_substates a = none) :
    (t.add_loaded_substate a v).locksConsistent := by
  intro a'
  rw [consistentAt_iff]
  have hlook : lookupA (t.add_loaded_substate a v).loaded_substates a' =
      (if a = a' then some ⟨v, .Read 0, .Existing .Loaded⟩
       else lookupA t.loaded_substates a') := by
    by_cases ha : a = a'
    · subst ha
      rw [if_pos rfl]
      exact lookupA_insertA_self t.loaded_substates a _
    · rw [if_neg ha]
      exact lookupA_insertA_ne t.loaded_substates a a' _ ha
  have hcr := (counts_add_loaded t a v a').1
  have hcw := (counts_add_loaded t a v a').2
  by_cases ha : a = a'
  · subst ha
    rw [if_pos rfl] at hlook
    have hc := (consistentAt_iff t a).mp (hcons a) |>.2 hnone
    constructor
    · intro ls' hls'
      rw [hlook] at hls'
      rw [(Option.some.injEq _ _).mp hls'.symm]
      constructor
      · intro n hn
        injection hn with hn0
        rw [hcr, hcw, ← hn0]
        exact ⟨hc.1, hc.2⟩
      · intro hw
        exact SubstateLockState.noConfusion hw
    · intro hn
      rw [hlook] at hn
      exact Option.noConfusion hn
  · rw [if_neg ha] at hlook
    have hc := (consistentAt_iff t a').mp (hcons a')
    constructor
    · intro ls' hls'
      rw [hlook] at hls'
      rw [hcr, hcw]
      exact hc.1 ls' hls'
    · intro hn
      rw [hlook] at hn
      rw [hcr, hcw]
      exact hc.2 hn

theorem consistent_success_state (t : Track) (a : Addr) (flags : LockFlags)
    (ls : LoadedSubstate) (newLock : SubstateLockState)
    (hwf : t.Wf) (hcons : t.locksConsistent)
    (hls : lookupA t.loaded_substates a = some ls)
    (hcompat : (∀ n, ls.lock_state = .Read n →
        (flags.is_mutable = false ∧ newLock = .Read (n + 1)) ∨
        (flags.is_mutable = true ∧ n = 0 ∧ newLock = .Write)))
    (hread : ∃ n, ls.lock_state = .Read n) :
    Track.locksConsistent
      (Track.new_lock_handle
        { t with loaded_substates :=
            modifyA t.loaded_substates a (fun l => { l with lock_state := newLock }) }
        a flags).2 := by
  obtain ⟨n0, hn0⟩ := hread
  set tm : Track :=
    { t with loaded_substates :=
        modifyA t.loaded_substates a (fun l => { l with lock_state := newLock }) } with htm
  have hwfm : tm.Wf := modify_loaded_wf t a _ hwf
  intro a'
  rw [consistentAt_iff]
  have hcounts := counts_new_lock_handle tm a flags hwfm a'
  have hlook2 : lookupA (tm.new_lock_handle a flags).2.loaded_substates a' =
      lookupA tm.loaded_substates a' := rfl
  have hlookm : lookupA tm.loaded_substates a' =
      (if a = a' then some { ls with lock_state := newLock }
       else lookupA t.loaded_substates a') := by
    by_cases ha : a = a'
    · subst ha
      rw [if_pos rfl, htm]
      show lookupA (modifyA t.loaded_substates a _) a = _
      rw [lookupA_modifyA_self, hls]
      rfl
    · rw [if_neg ha, htm]
      show lookupA (modifyA t.loaded_substates a _) a' = _
      exact lookupA_modifyA_ne t.loaded_substates a a' _ ha
  have hcm_r : tm.readLockCount a' = t.readLockCount a' := rfl
  have hcm_w : tm.writeLockCount a' = t.writeLockCount a' := rfl
  by_cases ha : a = a'
  · subst ha
    have hc := ((consistentAt_iff t a).mp (hcons a)).1 ls hls
    obtain ⟨hrn, hw0⟩ := hc.1 n0 hn0
    constructor
    · intro ls' hls'
      rw [hlook2, hlookm, if_pos rfl] at hls'
      rw [(Option.some.injEq _ _).mp hls'.symm]
      rcases hcompat n0 hn0 with ⟨hmf, hnew⟩ | ⟨hmt, hz, hnew⟩
      · constructor
        · intro n hn
          rw [hnew] at hn
          injection hn with hn2
          rw [hcounts.1, hcounts.2, hcm_r, hcm_w, if_pos ⟨rfl, hmf⟩,
            if_neg (by
              intro hcontra
              rw [hcontra.2] at hmf
              exact Bool.noConfusion hmf)]
          rw [hrn, hw0, ← hn2]
          exact ⟨rfl, rfl⟩
        · intro hw
          rw [hnew] at hw
          exact SubstateLockState.noConfusion hw
      · constructor
        · intro n hn
          rw [hnew] at hn
          exact SubstateLockState.noConfusion hn
        · intro _
          rw [hcounts.1, hcounts.2, hcm_r, hcm_w, if_pos ⟨rfl, hmt⟩,
            if_neg (by
              intro hcontra
              rw [hcontra.2] at hmt
              exact Bool.noConfusion hmt)]
          rw [hrn, hw0, hz]
          exact ⟨rfl, rfl⟩
    · intro hn
      rw [hlook2, hlookm, if_pos rfl] at hn
      exact Option.noConfusion hn
  · have hc := (consistentAt_iff t a').mp (hcons a')
    have hif_r : (if a = a' ∧ flags.is_mutable = false then 1 else 0) = 0 := by
      rw [if_neg (fun hcontra => ha hcontra.1)]
    have hif_w : (if a = a' ∧ flags.is_mutable = true then 1 else 0) = 0 := by
      rw [if_neg (fun hcontra => ha hcontra.1)]
    constructor
    · intro ls' hls'
      rw [hlook2, hlookm, if_neg ha] at hls'
      rw [hcounts.1, hcounts.2, hcm_r, hcm_w, hif_r, hif_w, Nat.add_zero, Nat.add_zero]
      exact hc.1 ls' hls'
    · intro hn
      rw [hlook2, hlookm, if_neg ha] at hn
      rw [hcounts.1, hcounts.2, hcm_r, hcm_w, hif_r, hif_w, Nat.add_zero, Nat.add_zero]
      exact hc.2 hn

theorem stateCheck_preserves (t : Track) (a : Addr) (flags : LockFlags)
    (ls : LoadedSubstate) (hwf : t.Wf) (hcons : t.locksConsistent)
    (hls : lookupA t.loaded_substates a = some ls) :
    ((t.acquireLockStateCheck a flags ls).2).Wf ∧
    ((t.acquireLockStateCheck a flags ls).2).locksConsistent := by
  rcases stateCheck_cases t a flags ls with
    ⟨n, hl, hm, hn, heq⟩ | ⟨hl, heq⟩ | ⟨hl, hm, heq⟩ | ⟨n, hl, hm, heq⟩
  · rw [heq]
    exact ⟨hwf, hcons⟩
  · rw [heq]
    exact ⟨hwf, hcons⟩
  · rw [heq]
    refine ⟨new_lock_handle_wf _ a flags (modify_loaded_wf t a _ hwf), ?_⟩
    refine consistent_success_state t a flags ls .Write hwf hcons hls ?_ ⟨0, hl⟩
    intro n' hn'
    right
    refine ⟨hm, ?_, rfl⟩
    rw [hl] at hn'
    injection hn' with h2
    exact h2.symm
  · rw [heq]
    refine ⟨new_lock_handle_wf _ a flags (modify_loaded_wf t a _ hwf), ?_⟩
    refine consistent_success_state t a flags ls (.Read (n + 1)) hwf hcons hls ?_ ⟨n, hl⟩
    intro n' hn'
    left
    refine ⟨hm, ?_⟩
    rw [hl] at hn'
    injection hn' with h2
    rw [h2]

theorem acquire_lock_of_missing (t : Track) (a : Addr) (flags : LockFlags)
    (hnone : lookupA t.loaded_substates a = none) :
    t.acquire_lock a flags =
      (match t.db a with
       | none => (.error (.NotFound a.1 a.2.1 a.2.2), t)
       | some v => (t.add_loaded_substate a v).acquireLockStateCheck a flags
           ⟨v, .Read 0, .Existing .Loaded⟩) := by
  unfold Track.acquire_lock
  cases hdb : t.db a with
  | none =>
    simp only [hnone, hdb]
  | some v =>
    have hfresh : lookupA (t.add_loaded_substate a v).loaded_substates a =
        some ⟨v, .Read 0, .Existing .Loaded⟩ := by
      unfold Track.add_loaded_substate
      exact lookupA_insertA_self _ _ _
    simp only [hnone, hdb, hfresh]
    by_cases hub : flags.unmodified_base <;> simp [hub]

theorem acquire_lock_preserves (t : Track) (a : Addr) (flags : LockFlags)
    (hwf : t.Wf) (hcons : t.locksConsistent) :
    ((t.acquire_lock a flags).2).Wf ∧ ((t.acquire_lock a flags).2).locksConsistent := by
  cases hlook : lookupA t.loaded_substates a with
  | some ls =>
    rw [acquire_lock_of_loaded t a flags ls hlook]
    by_cases hub : flags.unmodified_base
    · rw [if_pos hub]
      cases hms : ls.meta_state with
      | New => exact ⟨hwf, hcons⟩
      | Existing es =>
        cases es with
        | Updated s => exact ⟨hwf, hcons⟩
        | Loaded => exact stateCheck_preserves t a flags ls hwf hcons hlook
    · rw [if_neg hub]
      exact stateCheck_preserves t a flags ls hwf hcons hlook
  | none =>
    rw [acquire_lock_of_missing t a flags hlook]
    cases hdb : t.db a with
    | none => exact ⟨hwf, hcons⟩
    | some v =>
      have hwf1 := add_loaded_wf t a v hwf hlook
      have hcons1 := consistent_add_loaded t a v hcons hlook
      have hfresh : lookupA (t.add_loaded_substate a v).loaded_substates a =
          some ⟨v, .Read 0, .Existing .Loaded⟩ := by
        unfold Track.add_loaded_substate
        exact lookupA_insertA_self _ _ _
      exact stateCheck_preserves _ a flags _ hwf1 hcons1 hfresh

theorem consistent_remove_modify (t : Track) (h : Nat) (a : Addr) (flags : LockFlags)
    (ls : LoadedSubstate) (f : LoadedSubstate → LoadedSubstate)
    (hwf : t.Wf) (hcons : t.locksConsistent)
    (hlock : lookupA t.locks h = some (a, flags))
    (hload : lookupA t.loaded_substates a = some ls)
    (hf_read : ∀ n, ls.lock_state = .Read n → (f ls).lock_state = .Read (n - 1))
    (hf_write : ls.lock_state = .Write → (f ls).lock_state = .Read 0) :
    Track.locksConsistent
      { t with locks := removeA t.locks h,
               loaded_substates := modifyA t.loaded_substates a f } := by
  have hmem : (h, (a, flags)) ∈ t.locks := lookupA_mem hlock
  intro a'
  rw [consistentAt_iff]
  set t' : Track :=
    { t with locks := removeA t.locks h,
             loaded_substates := modifyA t.loaded_substates a f } with ht'
  have hr_eq : t.readLockCount a' =
      t'.readLockCount a' + (if (decide (a = a') && !flags.is_mutable : Bool) then 1 else 0) :=
    countP_removeA t.locks h (a, flags)
      (fun p => decide (p.2.1 = a') && !p.2.2.is_mutable) hwf.locks_nodup hlock
  have hw_eq : t.writeLockCount a' =
      t'.writeLockCount a' + (if (decide (a = a') && flags.is_mutable : Bool) then 1 else 0) :=
    countP_removeA t.locks h (a, flags)
      (fun p => decide (p.2.1 = a') && p.2.2.is_mutable) hwf.locks_nodup hlock
  have hlookup' : lookupA t'.loaded_substates a' =
      (if a = a' then some (f ls) else lookupA t.loaded_substates a') := by
    by_cases ha : a = a'
    · subst ha
      rw [if_pos rfl]
      show lookupA (modifyA t.loaded_substates a f) a = _
      rw [lookupA_modifyA_self, hload]
      rfl
    · rw [if_neg ha]
      exact lookupA_modifyA_ne t.loaded_substates a a' f ha
  by_cases ha : a = a'
  · subst ha
    have hc := ((consistentAt_iff t a).mp (hcons a)).1 ls hload
    cases hlsl : ls.lock_state with
    | Read n =>
      obtain ⟨hrn, hw0⟩ := hc.1 n hlsl
      have hmut : flags.is_mutable = false := by
        cases hmm : flags.is_mutable
        · rfl
        · exfalso
          have hpos : 0 < t.writeLockCount a :=
            List.countP_pos_iff.mpr ⟨(h, (a, flags)), hmem, by simp [hmm]⟩
          rw [hw0] at hpos
          exact Nat.lt_irrefl 0 hpos
      rw [show (if (decide (a = a) && !flags.is_mutable : Bool) then 1 else 0) = 1 by
            simp [hmut]] at hr_eq
      rw [show (if (decide (a = a) && flags.is_mutable : Bool) then 1 else 0) = 0 by
            simp [hmut], Nat.add_zero] at hw_eq
      constructor
      · intro ls' hls'
        rw [hlookup', if_pos rfl] at hls'
        rw [(Option.some.injEq _ _).mp hls'.symm]
        constructor
        · intro n' hn'
          rw [hf_read n hlsl] at hn'
          injection hn' with hn2
          constructor
          · omega
          · omega
        · intro hwcontra
          rw [hf_read n hlsl] at hwcontra
          exact SubstateLockState.noConfusion hwcontra
      · intro hn
        rw [hlookup', if_pos rfl] at hn
        exact Option.noConfusion hn
    | Write =>
      obtain ⟨hw1, hr0⟩ := hc.2 hlsl
      have hmut : flags.is_mutable = true := by
        cases hmm : flags.is_mutable
        · exfalso
          have hpos : 0 < t.readLockCount a :=
            List.countP_pos_iff.mpr ⟨(h, (a, flags)), hmem, by simp [hmm]⟩
          rw [hr0] at hpos
          exact Nat.lt_irrefl 0 hpos
        · rfl
      rw [show (if (decide (a = a) && flags.is_mutable : Bool) then 1 else 0) = 1 by
            simp [hmut]] at hw_eq
      rw [show (if (decide (a = a) && !flags.is_mutable : Bool) then 1 else 0) = 0 by
            simp [hmut], Nat.add_zero] at hr_eq
      constructor
      · intro ls' hls'
        rw [hlookup', if_pos rfl] at hls'
        rw [(Option.some.injEq _ _).mp hls'.symm]
        constructor
        · intro n' hn'
          rw [hf_write hlsl] at hn'
          injection hn' with hn2
          constructor
          · omega
          · omega
        · intro hwcontra
          rw [hf_write hlsl] at hwcontra
          exact SubstateLockState.noConfusion hwcontra
      · intro hn
        rw [hlookup', if_pos rfl] at hn
        exact Option.noConfusion hn
  · have hc := (consistentAt_iff t a').mp (hcons a')
    rw [show (if (decide (a = a') && !flags.is_mutable : Bool) then 1 else 0) = 0 by
          simp [ha], Nat.add_zero] at hr_eq
    rw [show (if (decide (a = a') && flags.is_mutable : Bool) then 1 else 0) = 0 by
          simp [ha], Nat.add_zero] at hw_eq
    constructor
    · intro ls' hls'
      rw [hlookup', if_neg ha] at hls'
      rw [← hr_eq, ← hw_eq]
      exact hc.1 ls' hls'
    · intro hn
      rw [hlookup', if_neg ha] at hn
      rw [← hr_eq, ← hw_eq]
      exact hc.2 hn

theorem release_lock_preserves (t : Track) (h : Nat) (t' : Track)
    (hwf : t.Wf) (hcons : t.locksConsistent) (hrel : t.release_lock h = some t') :
    t'.Wf ∧ t'.locksConsistent := by
  obtain ⟨a, flags, ls, hlock, hload, hc3⟩ := release_lock_cases t h t' hrel
  have wfshape : ∀ f : LoadedSubstate → LoadedSubstate,
      Track.Wf { t with locks := removeA t.locks h,
                        loaded_substates := modifyA t.loaded_substates a f } := by
    intro f
    refine ⟨?_, ?_, ?_⟩
    · show ((modifyA t.loaded_substates a f).map Prod.fst).Nodup
      rw [map_fst_modifyA]
      exact hwf.loaded_nodup
    · show ((removeA t.locks h).map Prod.fst).Nodup
      exact nodup_keys_removeA h hwf.locks_nodup
    · intro p hp
      exact hwf.locks_fresh p (mem_removeA_subset hp)
  rcases hc3 with ⟨n, hlsl, ht'⟩ | ⟨hlsl, hfw, ht'⟩ | ⟨hlsl, hfw, ht'⟩
  · subst ht'
    refine ⟨wfshape _, consistent_remove_modify t h a flags ls _ hwf hcons hlock hload ?_ ?_⟩
    · intro n' hn'
      rw [hlsl] at hn'
      injection hn' with h2
      subst h2
      rfl
    · intro hwc
      rw [hlsl] at hwc
      exact SubstateLockState.noConfusion hwc
  · subst ht'
    refine ⟨wfshape _, consistent_remove_modify t h a flags ls _ hwf hcons hlock hload ?_ ?_⟩
    · intro n' hn'
      rw [hlsl] at hn'
      exact SubstateLockState.noConfusion hn'
    · intro _
      rfl
  · subst ht'
    refine ⟨wfshape _, consistent_remove_modify t h a flags ls _ hwf hcons hlock hload ?_ ?_⟩
    · intro n' hn'
      rw [hlsl] at hn'
      exact SubstateLockState.noConfusion hn'
    · intro _
      rfl

/-- **C3.** Lock exclusion on the track: acquiring with `MUTABLE` fails with
`SubstateLocked` whenever any read lock is outstanding, acquiring anything on
a write-locked substate fails with `SubstateLocked`, and a read acquisition
on a read-locked substate always succeeds (any number of concurrent
readers). Under the lock-bookkeeping invariant — which `acquire_lock` and
`release_lock` preserve together with well-formedness — at most one write
lock is held per substate at any moment, a write lock excludes all read
locks, every outstanding read handle corresponds to a strictly positive
`Read` counter, and every outstanding write handle to the `Write` state. -/
theorem track_lock_exclusion :
    (∀ (t : Track) (a : Addr) (flags : LockFlags) (ls : LoadedSubstate),
      lookupA t.loaded_substates a = some ls →
      (flags.unmodified_base = true → ls.meta_state = .Existing .Loaded) →
      ((∀ n, flags.is_mutable = true → ls.lock_state = .Read n → n ≠ 0 →
        (t.acquire_lock a flags).1 = .error (.SubstateLocked a.1 a.2.1 a.2.2)) ∧
       (ls.lock_state = .Write →
        (t.acquire_lock a flags).1 = .error (.SubstateLocked a.1 a.2.1 a.2.2)) ∧
       (∀ n, flags.is_mutable = false → ls.lock_state = .Read n →
        (t.acquire_lock a flags).1 = .ok t.next_lock_id))) ∧
    (∀ t : Track, t.locksConsistent → ∀ a : Addr,
      t.writeLockCount a ≤ 1 ∧ (0 < t.writeLockCount a → t.readLockCount a = 0)) ∧
    (∀ (t : Track) (h : Nat) (a : Addr) (fl : LockFlags),
      t.locksConsistent → lookupA t.locks h = some (a, fl) →
      (fl.is_mutable = false →
        ∃ ls n, lookupA t.loaded_substates a = some ls ∧
          ls.lock_state = .Read n ∧ 0 < n) ∧
      (fl.is_mutable = true →
        ∃ ls, lookupA t.loaded_substates a = some ls ∧ ls.lock_state = .Write)) ∧
    (∀ (t : Track) (a : Addr) (flags : LockFlags),
      t.Wf → t.locksConsistent →
      ((t.acquire_lock a flags).2).Wf ∧
      ((t.acquire_lock a flags).2).locksConsistent) ∧
    (∀ (t : Track) (h : Nat) (t' : Track),
      t.Wf → t.locksConsistent → t.release_lock h = some t' →
      t'.Wf ∧ t'.locksConsistent) := by
  refine ⟨?_, ?_, ?_, ?_, ?_⟩
  · intro t a flags ls hls hubmeta
    have core : t.acquire_lock a flags = t.acquireLockStateCheck a flags ls := by
      rw [acquire_lock_of_loaded t a flags ls hls]
      by_cases hub : flags.unmodified_base
      · rw [if_pos hub, hubmeta hub]
      · rw [if_neg hub]
    refine ⟨?_, ?_, ?_⟩
    · intro n hm hlsl hn
      rw [core]
      simp [Track.acquireLockStateCheck, hlsl, hm, hn]
    · intro hlsl
      rw [core]
      simp [Track.acquireLockStateCheck, hlsl]
    · intro n hm hlsl
      rw [core]
      simp [Track.acquireLockStateCheck, hlsl, hm, Track.new_lock_handle]
  · intro t hcons a
    cases hl : lookupA t.loaded_substates a with
    | none =>
      obtain ⟨h0r, h0w⟩ := ((consistentAt_iff t a).mp (hcons a)).2 hl
      exact ⟨by omega, fun hpos => by omega⟩
    | some ls =>
      have hc := ((consistentAt_iff t a).mp (hcons a)).1 ls hl
      cases hlsl : ls.lock_state with
      | Read n =>
        obtain ⟨hrn, hw0⟩ := hc.1 n hlsl
        exact ⟨by omega, fun hpos => by omega⟩
      | Write =>
        obtain ⟨hw1, hr0⟩ := hc.2 hlsl
        exact ⟨by omega, fun _ => hr0⟩
  · intro t h a fl hcons hlock
    have hmem := lookupA_mem hlock
    constructor
    · intro hmf
      have hpos : 0 < t.readLockCount a :=
        List.countP_pos_iff.mpr ⟨(h, (a, fl)), hmem, by simp [hmf]⟩
      cases hl : lookupA t.loaded_substates a with
      | none =>
        obtain ⟨h0r, _⟩ := ((consistentAt_iff t a).mp (hcons a)).2 hl
        rw [h0r] at hpos
        exact absurd hpos (Nat.lt_irrefl 0)
      | some ls =>
        have hc := ((consistentAt_iff t a).mp (hcons a)).1 ls hl
        cases hlsl : ls.lock_state with
        | Read n =>
          obtain ⟨hrn, _⟩ := hc.1 n hlsl
          exact ⟨ls, n, rfl, hlsl, by omega⟩
        | Write =>
          obtain ⟨_, hr0⟩ := hc.2 hlsl
          rw [hr0] at hpos
          exact absurd hpos (Nat.lt_irrefl 0)
    · intro hmt
      have hpos : 0 < t.writeLockCount a :=
        List.countP_pos_iff.mpr ⟨(h, (a, fl)), hmem, by simp [hmt]⟩
      cases hl : lookupA t.loaded_substates a with
      | none =>
        obtain ⟨_, h0w⟩ := ((consistentAt_iff t a).mp (hcons a)).2 hl
        rw [h0w] at hpos
        exact absurd hpos (Nat.lt_irrefl 0)
      | some ls =>
        have hc := ((consistentAt_iff t a).mp (hcons a)).1 ls hl
        cases hlsl : ls.lock_state with
        | Read n =>
          obtain ⟨_, hw0⟩ := hc.1 n hlsl
          rw [hw0] at hpos
          exact absurd hpos (Nat.lt_irrefl 0)
        | Write =>
          exact ⟨ls, rfl, hlsl⟩
  · intro t a flags hwf hcons
    exact acquire_lock_preserves t a flags hwf hcons
  · intro t h t' hwf hcons hrel
    exact release_lock_preserves t h t' hwf hcons hrel

/-- Witness for C3: on the write-locked track a read acquisition fails with
`SubstateLocked`, and a mutable acquisition on the empty track yields a
well-formed, consistent successor state. -/
theorem track_lock_exclusion_witness :
    (trackWriteLocked.acquire_lock (0, 0, 0) LockFlags.read_only).1 =
      .error (.SubstateLocked 0 0 0) ∧
    ((trackEmpty.acquire_lock (0, 0, 0) ⟨true, false, false⟩).2).Wf ∧
    ((trackEmpty.acquire_lock (0, 0, 0) ⟨true, false, false⟩).2).locksConsistent :=
  ⟨(track_lock_exclusion.1 trackWriteLocked (0, 0, 0) LockFlags.read_only
      ⟨7, .Write, .Existing .Loaded⟩ rfl (fun _ => rfl)).2.1 rfl,
   (track_lock_exclusion.2.2.2.1 trackEmpty (0, 0, 0) ⟨true, false, false⟩
      ⟨List.nodup_nil, List.nodup_nil, by simp [trackEmpty]⟩
      (fun _ => ⟨rfl, rfl⟩)).1,
   (track_lock_exclusion.2.2.2.1 trackEmpty (0, 0, 0) ⟨true, false, false⟩
      ⟨List.nodup_nil, List.nodup_nil, by simp [trackEmpty]⟩
      (fun _ => ⟨rfl, rfl⟩)).2⟩

end Spec2Proof
